import Mathlib

/-!
Verification development for `src/extras/prepareDynamoPackage.py`, a deployment
script that assembles a Dynamo plugin package from a template plus build
binaries and replicates it into host install directories.

The script is embedded shallowly: the filesystem is a tree of directories and
files, every `shutil`/`os` call the script makes is a function on that tree
with the documented Python semantics (in particular `shutil.copytree` refuses
an existing destination, `shutil.rmtree` on a plain file raises, `str.replace`
substitutes leftmost non-overlapping occurrences), and environmental failures
(locked directories) are supplied by an oracle.
-/

/-! ### Python `str.replace` on character lists

`replaceAllAux` scans left to right and replaces each leftmost non-overlapping
occurrence of `p` by `b`, exactly as Python `str.replace` does for a nonempty
pattern.  The fuel argument only bounds recursion depth; `replaceAll` supplies
`s.length`, which always suffices. -/

def replaceAllAux (p b : List Char) : Nat → List Char → List Char
  | 0, s => s
  | f + 1, s =>
    if p ≠ [] ∧ p <+: s then b ++ replaceAllAux p b f (s.drop p.length)
    else
      match s with
      | [] => []
      | c :: cs => c :: replaceAllAux p b f cs

/-- Python `s.replace(p, b)` for a nonempty pattern `p`. -/
def replaceAll (s p b : List Char) : List Char :=
  replaceAllAux p b s.length s

/-! ### Filesystem model

A filesystem entry is a file (with content and a modification time, which
`shutil.copy2` preserves) or a directory with a named-children list.  Paths are
component lists.  `insertPath` mirrors a write that creates missing parent
directories (`os.makedirs` inside `shutil.copytree`) and fails when a plain
file obstructs the path; `erasePath` mirrors `shutil.rmtree`. -/

inductive Entry where
  | file (content : String) (mtime : Nat)
  | dir (children : List (String × Entry))

/-- First entry with the given name, as `os.listdir`-based lookup. -/
def lookupChild : List (String × Entry) → String → Option Entry
  | [], _ => none
  | (m, e) :: rest, n => if m = n then some e else lookupChild rest n

/-- Replace the first entry with the given name in place, or append. -/
def setChild : List (String × Entry) → String → Entry → List (String × Entry)
  | [], n, v => [(n, v)]
  | (m, e) :: rest, n, v =>
    if m = n then (n, v) :: rest else (m, e) :: setChild rest n v

/-- Remove every entry with the given name. -/
def eraseChild : List (String × Entry) → String → List (String × Entry)
  | [], _ => []
  | (m, e) :: rest, n =>
    if m = n then eraseChild rest n else (m, e) :: eraseChild rest n

/-- Resolve a path to the entry it denotes, if any. -/
def lookupPath : Entry → List String → Option Entry
  | fs, [] => some fs
  | fs, n :: rest =>
    match fs with
    | .file _ _ => none
    | .dir ch =>
      match lookupChild ch n with
      | none => none
      | some e => lookupPath e rest

/-- Write an entry at a path, creating missing intermediate directories and
failing when a plain file stands in the way. -/
def insertPath : Entry → List String → Entry → Except Unit Entry
  | _, [], v => .ok v
  | fs, n :: rest, v =>
    match fs with
    | .file _ _ => .error ()
    | .dir ch =>
      match rest with
      | [] => .ok (.dir (setChild ch n v))
      | m :: rest' =>
        match insertPath ((lookupChild ch n).getD (.dir [])) (m :: rest') v with
        | .error e => .error e
        | .ok e => .ok (.dir (setChild ch n e))

/-- Remove the entry at a path, a no-op when the path does not resolve. -/
def erasePath : Entry → List String → Entry
  | fs, [] => fs
  | fs, n :: rest =>
    match fs with
    | .file c m => .file c m
    | .dir ch =>
      match rest with
      | [] => .dir (eraseChild ch n)
      | m :: rest' =>
        match lookupChild ch n with
        | none => .dir ch
        | some e => .dir (setChild ch n (erasePath e (m :: rest')))

/-- `insertPath`, recovering the unchanged tree on failure. -/
def setPathD (fs : Entry) (p : List String) (v : Entry) : Entry :=
  match insertPath fs p v with
  | .ok f => f
  | .error _ => fs

/-- `os.path.exists`. -/
def pathExists (fs : Entry) (p : List String) : Bool :=
  (lookupPath fs p).isSome

/-- A path is writable when no plain file obstructs it: `insertPath` succeeds
exactly on writable paths. -/
def writable : Entry → List String → Bool
  | _, [] => true
  | fs, n :: rest =>
    match fs with
    | .file _ _ => false
    | .dir ch =>
      match rest with
      | [] => true
      | m :: rest' =>
        match lookupChild ch n with
        | none => true
        | some e => writable e (m :: rest')

/-- Two paths are incomparable when neither is a prefix of the other, so
operations at one cannot affect what the other resolves to. -/
def PathIncomp (p q : List String) : Prop :=
  ¬ p <+: q ∧ ¬ q <+: p

instance (p q : List String) : Decidable (PathIncomp p q) :=
  inferInstanceAs (Decidable (¬ p <+: q ∧ ¬ q <+: p))

/-! ### The deployment script

Embedding of `main` from `src/extras/prepareDynamoPackage.py`.  `currentFolder`
is the directory holding the script (`<root>/extras`), so the template lives at
`<root>/extras/package-template`, the staging directory (`targetFolder`) at
`<root>/dynamo-package`, and build output under `<root>/bin/...`; `<root>`
abstracts the resolved `os.path.join(currentFolder, "..")`.  `APPDATA` comes
from the environment.  Lock-style environmental failures of `shutil.rmtree`
and `shutil.copytree` are chosen by an `Oracle`; a failed `rmtree` leaves some
residual tree at the path (Python removes what it could before failing), a
failed `copytree` leaves an optional partial tree.  All operations the script
runs between the template copy and the end of the binary-population loop touch
only paths under the staging directory, so they are computed on the staging
subtree and written back at every exit point; this is observably identical to
the per-call global writes.  An uncaught Python exception terminates the
process with exit status 1, as does `sys.exit(1)`. -/

def versionToken : String := "$Version$"

def dynamoVersionToken : String := "$DynamoVersion$"

/-- The fixed semantic version literal the script writes (`packageVersion`). -/
def packageVersion : String := "0.1.0"

/-- Python `s.replace(p, b)` on strings. -/
def strReplace (s p b : String) : String :=
  ⟨replaceAll s.data p.data b.data⟩

/-- The two placeholder substitutions performed on `pkg.json`. -/
def processPkgJson (content dynamoInstallVersion : String) : String :=
  strReplace (strReplace content versionToken packageVersion)
    dynamoVersionToken dynamoInstallVersion

/-- Substring occurrence, `sub in s` on Python strings. -/
def containsStr (s sub : String) : Prop :=
  sub.data <:+: s.data

instance (s sub : String) : Decidable (containsStr s sub) :=
  inferInstanceAs (Decidable (sub.data <:+: s.data))

/-- Outcome of a `shutil.rmtree` call with error handling: success, or a
failure that leaves a residual tree (what could not be deleted) in place. -/
inductive RmO where
  | ok
  | fail (residual : Entry)

/-- Outcome of a `shutil.copytree` call: success, or an environmental failure
that leaves an optional partial tree at the destination. -/
inductive CpO where
  | ok
  | fail (residual : Option Entry)

/-- Environmental (lock) failure choices for each fallible call site. -/
structure Oracle where
  stagingRm : RmO
  stagingCp : CpO
  coreRm : RmO
  coreCp : CpO
  revitRm : RmO
  revitCp : CpO

/-- The oracle of a run with no environmental failures. -/
def Oracle.allOk : Oracle :=
  ⟨.ok, .ok, .ok, .ok, .ok, .ok⟩

/-- Tool root (`os.path.join(currentFolder, "..")` resolved) and the user
application-data directory (`APPDATA`). -/
structure Cfg where
  root : List String
  appdata : List String

def currentFolder (cfg : Cfg) : List String :=
  cfg.root ++ ["extras"]

def templateFolder (cfg : Cfg) : List String :=
  cfg.root ++ ["extras", "package-template"]

def targetFolder (cfg : Cfg) : List String :=
  cfg.root ++ ["dynamo-package"]

def sourceBinariesFolder (cfg : Cfg) (config dynamoVersion : String) :
    List String :=
  cfg.root ++ ["bin", config, dynamoVersion, "DataExchangeNodes"]

def packageTargetFolder (cfg : Cfg) (dynamoInstallVersion : String) :
    List String :=
  cfg.appdata ++ ["Dynamo", "Dynamo Core", dynamoInstallVersion, "packages",
    "DataExchangeNodes"]

def packageTargetFolderRevit (cfg : Cfg) (dynamoInstallVersion : String) :
    List String :=
  cfg.appdata ++ ["Dynamo", "Dynamo Revit", dynamoInstallVersion, "packages",
    "DataExchangeNodes"]

def pathStr (p : List String) : String :=
  String.intercalate "/" p

def msgStart : String := "Dynamo package creation started"

def msgUsage : String := "Missing package config params"

def warnStagingLines : List String :=
  ["Warning: Could not remove existing dynamo-package folder",
   "Attempting to continue anyway..."]

def incompleteLines (srcP tplP : List String) : List String :=
  ["Incomplete build.",
   "Expected build output at: " ++ pathStr srcP,
   "Template folder: " ++ pathStr tplP,
   "Build may not have completed successfully, or output path is different."]

def msgNoPkgJson : String := "Incomplete build. Missing pkg.json in template"

def msgVersionSet : String := "Package version set to: 0.1.0"

def coreErrLines (p : List String) : List String :=
  ["Error copying to " ++ pathStr p,
   "Make sure Dynamo is not running and try again."]

def revitErrLines (p : List String) : List String :=
  ["Error copying to " ++ pathStr p,
   "Make sure Dynamo Revit is not running and try again."]

def okLines (p : List String) : List String :=
  ["Dynamo package complete  " ++ pathStr p]

/-- `os.makedirs(path, exist_ok=True)` on the staging children: a no-op when
the directory exists, appends a fresh directory when absent, raises when a
plain file of that name exists. -/
def ensureChildDir (l : List (String × Entry)) (n : String) :
    Except (List (String × Entry)) (List (String × Entry)) :=
  match lookupChild l n with
  | some (.dir _) => .ok l
  | some (.file _ _) => .error l
  | none => .ok (l ++ [(n, .dir [])])

/-- The three `os.makedirs` calls for `bin`, `dyf`, `extra`, in order. -/
def ensureDirs (tch : List (String × Entry)) :
    Except (List (String × Entry)) (List (String × Entry)) :=
  match ensureChildDir tch "bin" with
  | .error t => .error t
  | .ok t1 =>
    match ensureChildDir t1 "dyf" with
    | .error t => .error t
    | .ok t2 => ensureChildDir t2 "extra"

/-- One iteration of the binary-population loop, on the staging `bin`
children: `shutil.copy2` for a file (raises onto an existing directory),
`shutil.rmtree` + `shutil.copytree` for a directory (`rmtree` raises on a
plain file). -/
def populateStep (bch : List (String × Entry)) (n : String) (e : Entry) :
    Except (List (String × Entry)) (List (String × Entry)) :=
  match e with
  | .file c m =>
    match lookupChild bch n with
    | some (.dir _) => .error bch
    | _ => .ok (setChild bch n (.file c m))
  | .dir d =>
    match lookupChild bch n with
    | some (.file _ _) => .error bch
    | some (.dir _) => .ok (eraseChild bch n ++ [(n, .dir d)])
    | none => .ok (bch ++ [(n, .dir d)])

/-- The `for item in os.listdir(sourceBinariesFolder)` loop. -/
def populateBin (bch : List (String × Entry)) :
    List (String × Entry) → Except (List (String × Entry)) (List (String × Entry))
  | [] => .ok bch
  | (n, e) :: rest =>
    match populateStep bch n e with
    | .error b => .error b
    | .ok b => populateBin b rest

/-- The full staging-subtree pipeline (makedirs, manifest check and rewrite,
binary population) as a pure function of the template children, the source
children and the install version; `none` when the script would die or return
early on this data. -/
def stagedChildren (tch sch : List (String × Entry))
    (dynamoInstallVersion : String) : Option (List (String × Entry)) :=
  match ensureDirs tch with
  | .error _ => none
  | .ok ch2 =>
    match lookupChild ch2 "pkg.json" with
    | some (.file c _) =>
      let ch3 := setChild ch2 "pkg.json"
        (.file (processPkgJson c dynamoInstallVersion) 0)
      match lookupChild ch3 "bin" with
      | some (.dir bch) =>
        match populateBin bch sch with
        | .ok b => some (setChild ch3 "bin" (.dir b))
        | .error _ => none
      | _ => none
    | _ => none

/-- The tolerant `shutil.rmtree` of a prior install at a destination: removal
when it exists, or the oracle-chosen residual on failure.  The destination
sites pass the error-swallowing `make_writable` as `onerror`, so `rmtree`
returns normally even when entries could not be deleted: the failure leaves
its residual silently and the surrounding `except` clause (and its warning
prints) is never reached. -/
def rmPhase (fs : Entry) (dstP : List String) (rmO : RmO) : Entry :=
  if pathExists fs dstP then
    match rmO with
    | .ok => erasePath fs dstP
    | .fail r => setPathD fs dstP r
  else fs

/-- `shutil.copytree(targetFolder, dstP)` inside `try/except`: refuses an
existing destination, fails when the source is missing or not a directory or
when a file obstructs the destination path, and otherwise succeeds or fails
as the oracle chooses.  The boolean records success. -/
def tryCopyTree (fs : Entry) (stgP dstP : List String) (cpO : CpO) :
    Entry × Bool :=
  match lookupPath fs stgP with
  | some (.dir tc) =>
    if pathExists fs dstP then (fs, false)
    else
      match insertPath fs dstP (.dir tc) with
      | .error _ => (fs, false)
      | .ok fs2 =>
        match cpO with
        | .ok => (fs2, true)
        | .fail none => (fs, false)
        | .fail (some r) => (setPathD fs dstP r, false)
  | _ => (fs, false)

/-- One destination deployment block: tolerant `rmtree` of a prior install
(a failure is silent, since the swallowing `onerror` keeps `rmtree` from
raising), then `copytree` from the staging directory inside `try/except`
(failure logged, run continues). -/
def destBlock (fs : Entry) (log : List String) (stgP dstP : List String)
    (rmO : RmO) (cpO : CpO) (errL okL : List String) :
    Entry × List String :=
  let a := rmPhase fs dstP rmO
  let b := tryCopyTree a stgP dstP cpO
  (b.1, log ++ (if b.2 then okL else errL))

/-- The result of one invocation: final filesystem, printed lines, and the
process exit status. -/
structure RunResult where
  fs : Entry
  log : List String
  exitCode : Nat

/-- Step 1 of the script: best-effort removal of a pre-existing staging
directory, before any precondition is checked. -/
def resetStagingFs (cfg : Cfg) (o : Oracle) (fs0 : Entry) : Entry :=
  if pathExists fs0 (targetFolder cfg) then
    match o.stagingRm with
    | .ok => erasePath fs0 (targetFolder cfg)
    | .fail r => setPathD fs0 (targetFolder cfg) r
  else fs0

/-- Lines printed by the staging reset step. -/
def resetStagingLog (cfg : Cfg) (o : Oracle) (fs0 : Entry) : List String :=
  if pathExists fs0 (targetFolder cfg) then
    match o.stagingRm with
    | .ok => [msgStart]
    | .fail _ => [msgStart] ++ warnStagingLines
  else [msgStart]

/-- The staging tree at the end of a successful run: the template children
after `os.makedirs`, with the rewritten manifest and the populated `bin`
folder. -/
def stagedEntry (ch2 b : List (String × Entry)) (t iv : String) : Entry :=
  .dir (setChild (setChild ch2 "pkg.json" (.file (processPkgJson t iv) 0))
    "bin" (.dir b))

/-- The two destination deployments at the end of the run, Dynamo Core then
Dynamo Revit, and the normal exit. -/
def destChain (cfg : Cfg) (o : Oracle) (iv : String) (fs3 : Entry)
    (log2 : List String) : RunResult :=
  let stgP := targetFolder cfg
  let coreP := packageTargetFolder cfg iv
  let revitP := packageTargetFolderRevit cfg iv
  let r4 := destBlock fs3 log2 stgP coreP o.coreRm o.coreCp
    (coreErrLines coreP) (okLines coreP)
  let r5 := destBlock r4.1 r4.2 stgP revitP o.revitRm o.revitCp
    (revitErrLines revitP) (okLines revitP)
  ⟨r5.1, r5.2, 0⟩

/-- The remainder of the run once the template has been copied into the
staging directory: the three `os.makedirs`, the manifest check and rewrite,
the binary-population loop and the two destination deployments.  All staging
mutations are written back through `setPathD fs1 (targetFolder cfg)`. -/
def afterCopy (cfg : Cfg) (o : Oracle) (config dynamoVersion
    dynamoInstallVersion : String) (fs1 : Entry) (log1 : List String)
    (tch : List (String × Entry)) : RunResult :=
  let stgP := targetFolder cfg
  let srcP := sourceBinariesFolder cfg config dynamoVersion
  match ensureDirs tch with
  | .error t => ⟨setPathD fs1 stgP (.dir t), log1, 1⟩
  | .ok ch2 =>
    match lookupChild ch2 "pkg.json" with
    | none =>
      ⟨setPathD fs1 stgP (.dir ch2), log1 ++ [msgNoPkgJson], 0⟩
    | some (.dir _) => ⟨setPathD fs1 stgP (.dir ch2), log1, 1⟩
    | some (.file c _) =>
      let ch3 := setChild ch2 "pkg.json"
        (.file (processPkgJson c dynamoInstallVersion) 0)
      let log2 := log1 ++ [msgVersionSet]
      match lookupPath fs1 srcP with
      | some (.dir sch) =>
        match lookupChild ch3 "bin" with
        | some (.dir bch) =>
          match populateBin bch sch with
          | .error b =>
            ⟨setPathD fs1 stgP (.dir (setChild ch3 "bin" (.dir b))),
              log2, 1⟩
          | .ok b =>
            destChain cfg o dynamoInstallVersion
              (setPathD fs1 stgP (stagedEntry ch2 b c dynamoInstallVersion))
              log2
        | _ => ⟨setPathD fs1 stgP (.dir ch3), log2, 1⟩
      | _ => ⟨setPathD fs1 stgP (.dir ch3), log2, 1⟩

namespace prepareDynamoPackage

/-- The script `main`, over the four positional parameters
(platform, config, dynamoVersion, dynamoInstallVersion). -/
def main (cfg : Cfg) (o : Oracle) (args : List String) (fs0 : Entry) :
    RunResult :=
  let log0 := [msgStart]
  match args with
  | [_platform, config, dynamoVersion, dynamoInstallVersion] =>
    let stgP := targetFolder cfg
    let fs1 := resetStagingFs cfg o fs0
    let log1 := resetStagingLog cfg o fs0
    let srcP := sourceBinariesFolder cfg config dynamoVersion
    let tplP := templateFolder cfg
    if pathExists fs1 srcP && pathExists fs1 tplP then
      match lookupPath fs1 tplP with
      | some (.dir tch) =>
        if pathExists fs1 stgP then ⟨fs1, log1, 1⟩
        else
          match insertPath fs1 stgP (.dir tch) with
          | .error _ => ⟨fs1, log1, 1⟩
          | .ok _ =>
            match o.stagingCp with
            | .fail none => ⟨fs1, log1, 1⟩
            | .fail (some t) => ⟨setPathD fs1 stgP t, log1, 1⟩
            | .ok =>
              afterCopy cfg o config dynamoVersion dynamoInstallVersion
                fs1 log1 tch
      | _ => ⟨fs1, log1, 1⟩
    else ⟨fs1, log1 ++ incompleteLines srcP tplP, 1⟩
  | _ => ⟨fs0, log0 ++ [msgUsage], 0⟩

end prepareDynamoPackage

/-- Whether an optional entry is a plain file. -/
def isFileO : Option Entry → Bool
  | some (.file _ _) => true
  | _ => false

/-- Whether an optional entry is a directory. -/
def isDirO : Option Entry → Bool
  | some (.dir _) => true
  | _ => false

def c2cfg : Cfg := ⟨["r"], ["a"]⟩

def c2fs : Entry := .dir [("r", .dir
  [("extras", .dir [("package-template", .dir [("pkg.json", .file "" 0)])])])]

def c3cfg : Cfg := ⟨["r"], ["a"]⟩

def c3fs : Entry := .dir [("r", .dir
  [("extras", .dir [("package-template", .dir [("pkg.json", .file "" 0)])]),
   ("dynamo-package", .dir [("stale", .file "x" 1)])])]

/-- The children of the staging `bin` directory right after the three
`os.makedirs` calls: the template-provided `bin` directory if there was one,
otherwise the freshly created empty directory. -/
def binBase (tch : List (String × Entry)) : List (String × Entry) :=
  match lookupChild tch "bin" with
  | some (.dir d) => d
  | _ => []

def c4cfg : Cfg := ⟨["r"], ["a"]⟩

def c4fs : Entry := .dir [("r", .dir
  [("extras", .dir [("package-template", .dir [])]),
   ("bin", .dir [("cfg", .dir [("1.0", .dir [("DataExchangeNodes", .dir [])])])])])]

/-! ### The binary-population loop -/

def compatB (bch : List (String × Entry)) : List (String × Entry) → Bool
  | [] => true
  | (n, .file _ _) :: rest => !(isDirO (lookupChild bch n)) && compatB bch rest
  | (n, .dir _) :: rest => !(isFileO (lookupChild bch n)) && compatB bch rest

def c5bch : List (String × Entry) :=
  [("sub", .dir [("old.txt", .file "old" 9)]), ("keep.dll", .file "k" 1)]

def c5sch : List (String × Entry) :=
  [("a.dll", .file "x" 5), ("sub", .dir [("new.txt", .file "y" 2)])]

def c1cfg : Cfg := ⟨["r"], ["a"]⟩

def c1fs : Entry :=
  .dir [("r", .dir [
    ("extras", .dir [("package-template", .dir [("pkg.json", .file "" 7)])]),
    ("bin", .dir [("cfg", .dir [("1.0", .dir [("DataExchangeNodes",
      .dir [("a.dll", .file "x" 5)])])])])]),
   ("a", .dir [])]

def c1wfs : Entry :=
  .dir [("r", .dir [
    ("extras", .dir [("package-template", .dir [("pkg.json",
      .file "v $Version$ d $DynamoVersion$" 7)])]),
    ("bin", .dir [("cfg", .dir [("1.0", .dir [("DataExchangeNodes",
      .dir [("a.dll", .file "x" 5)])])])])]),
   ("a", .dir [])]

def c6cfg : Cfg := ⟨["r"], ["a"]⟩

def o6 : Oracle := ⟨.ok, .ok, .ok, .fail none, .ok, .ok⟩

def c6fs : Entry :=
  .dir [("r", .dir [
    ("extras", .dir [("package-template", .dir [("pkg.json",
      .file "m $Version$ $DynamoVersion$" 7)])]),
    ("bin", .dir [("cfg", .dir [("1.0", .dir [("DataExchangeNodes",
      .dir [("a.dll", .file "x" 5)])])])])]),
   ("a", .dir [])]

def c10cfg : Cfg := ⟨["r"], ["a"]⟩

def o10 : Oracle :=
  ⟨.ok, .ok, .fail (.dir [("b.dll", .file "b" 2)]), .ok, .ok, .ok⟩

def c10fs : Entry :=
  .dir [("r", .dir [
    ("extras", .dir [("package-template", .dir [("pkg.json",
      .file "m $Version$ $DynamoVersion$" 7)])]),
    ("bin", .dir [("cfg", .dir [("1.0", .dir [("DataExchangeNodes",
      .dir [("a.dll", .file "x" 5)])])])])]),
   ("a", .dir [("Dynamo", .dir [("Dynamo Core", .dir [("4",
     .dir [("packages", .dir [("DataExchangeNodes",
       .dir [("a.dll", .file "a" 1), ("b.dll", .file "b" 2)])])])])])])]

def c8cfg : Cfg := ⟨["r"], ["a"]⟩

def c8fs : Entry :=
  .dir [("r", .dir [
    ("extras", .dir [("package-template", .dir [("pkg.json",
      .file "m $Version$ $DynamoVersion$" 7)])]),
    ("bin", .dir [("cfg", .dir [("1.0", .dir [("DataExchangeNodes",
      .dir [("a.dll", .file "x" 5)])])])])]),
   ("a", .dir [])]

/-- On the empty input the replacement scan returns the empty list. -/
theorem replaceAllAux_nil (p b : List Char) :
    ∀ f, replaceAllAux p b f [] = []
  | 0 => rfl
  | f + 1 => by
    simp only [replaceAllAux]
    rw [if_neg]
    rintro ⟨h1, h2⟩
    exact h1 (List.prefix_nil.mp h2)

/-- An infix of a right append part is an infix of the whole. -/
theorem infix_append_of_right {α : Type} {y t : List α} (x : List α)
    (h : t <:+: y) : t <:+: (x ++ y) := by
  obtain ⟨u, v, huv⟩ := h
  exact ⟨x ++ u, v, by rw [List.append_assoc, List.append_assoc, ← List.append_assoc u,
    huv]⟩

/-- Splitting an infix occurrence across an append: it lies in the left part,
in the right part, or straddles the boundary. -/
theorem infix_append_split {α : Type} {x y t : List α} (h : t <:+: (x ++ y)) :
    t <:+: x ∨ t <:+: y ∨
      ∃ t₁ t₂, t = t₁ ++ t₂ ∧ t₁ ≠ [] ∧ t₂ ≠ [] ∧ t₁ <:+ x ∧ t₂ <+: y := by
  obtain ⟨u, v, huv⟩ := h
  rw [List.append_assoc] at huv
  rcases List.append_eq_append_iff.mp huv with ⟨w, hx, hw⟩ | ⟨w, hu, hy⟩
  · rcases List.append_eq_append_iff.mp hw with ⟨z, hwz, hv⟩ | ⟨z, htz, hyz⟩
    · left
      exact ⟨u, z, by rw [hx, hwz, List.append_assoc]⟩
    · rcases eq_or_ne w [] with rfl | hwne
      · right; left
        simp only [List.nil_append] at htz
        exact (show t <+: y from ⟨v, by rw [hyz, htz]⟩).isInfix
      · rcases eq_or_ne z [] with rfl | hzne
        · left
          rw [List.append_nil] at htz
          exact (show t <:+ x from htz ▸ ⟨u, hx.symm⟩).isInfix
        · right; right
          exact ⟨w, z, htz, hwne, hzne, ⟨u, hx.symm⟩, ⟨v, hyz.symm⟩⟩
  · right; left
    exact ⟨w, v, by rw [hy, List.append_assoc]⟩

/-- A nonempty prefix of the output of `replaceAllAux` whose characters avoid
the replacement string is a prefix of the input. -/
theorem pre_of_pre_replaceAllAux {p b : List Char} (hb : b ≠ []) :
    ∀ f s q, s.length ≤ f → q ≠ [] → (∀ c ∈ q, c ∉ b) →
      q <+: replaceAllAux p b f s → q <+: s := by
  intro f
  induction f with
  | zero =>
    intro s q hf hq _ h
    have hs : s = [] := List.length_eq_zero.mp (Nat.le_zero.mp hf)
    subst hs
    simpa [replaceAllAux] using h
  | succ f ih =>
    intro s q hf hq hdisj h
    match s with
    | [] =>
      rw [replaceAllAux_nil] at h
      exact h
    | c :: cs =>
      simp only [replaceAllAux] at h
      split at h
      · match b, hb with
        | d :: bs, _ =>
          match q, hq with
          | e :: qs, _ =>
            rw [List.cons_append] at h
            rcases List.cons_prefix_cons.mp h with ⟨rfl, _⟩
            exact absurd (List.mem_cons_self e bs)
              (hdisj e (List.mem_cons_self e qs))
      · match q, hq with
        | e :: qs, _ =>
          rcases List.cons_prefix_cons.mp h with ⟨rfl, hqs⟩
          rcases eq_or_ne qs [] with rfl | hqs0
          · exact List.cons_prefix_cons.mpr ⟨rfl, List.nil_prefix⟩
          · have hrec : qs <+: cs := by
              refine ih cs qs (by simpa using hf) hqs0 ?_ hqs
              intro x hx
              exact hdisj x (List.mem_cons_of_mem _ hx)
            exact List.cons_prefix_cons.mpr ⟨rfl, hrec⟩

/-- After replacement, no occurrence of the pattern remains, provided the
replacement string is nonempty and shares no character with the pattern. -/
theorem not_infix_replaceAllAux {p b : List Char} (hp : p ≠ []) (hb : b ≠ [])
    (hdisj : ∀ c ∈ p, c ∉ b) :
    ∀ f s, s.length ≤ f → ¬ p <:+: replaceAllAux p b f s := by
  intro f
  induction f with
  | zero =>
    intro s hf h
    have hs : s = [] := List.length_eq_zero.mp (Nat.le_zero.mp hf)
    subst hs
    simp only [replaceAllAux] at h
    exact hp (List.eq_nil_of_infix_nil h)
  | succ f ih =>
    intro s hf h
    match s with
    | [] =>
      rw [replaceAllAux_nil] at h
      exact hp (List.eq_nil_of_infix_nil h)
    | c :: cs =>
      simp only [replaceAllAux] at h
      split at h
      · rcases infix_append_split h with hL | hR | ⟨t₁, t₂, ht, ht₁, _, hsuf, _⟩
        · match p, hp with
          | e :: ps, _ =>
            exact hdisj e (List.mem_cons_self _ _) (hL.subset (List.mem_cons_self _ _))
        · have hlen : (List.drop p.length (c :: cs)).length ≤ f := by
            have hp1 : 1 ≤ p.length := List.length_pos.mpr hp
            simp only [List.length_drop, List.length_cons]
            simp only [List.length_cons] at hf
            omega
          exact ih _ hlen hR
        · match t₁, ht₁ with
          | e :: ts, _ =>
            refine hdisj e ?_ (hsuf.subset (List.mem_cons_self _ _))
            rw [ht]
            exact List.mem_append_left _ (List.mem_cons_self _ _)
      · rename_i hmatch
        have hnp : ¬ p <+: (c :: cs) := fun hc => hmatch ⟨hp, hc⟩
        rcases List.infix_cons_iff.mp h with hpre | hinf
        · match p, hp with
          | e :: ps, _ =>
            rcases List.cons_prefix_cons.mp hpre with ⟨rfl, hps⟩
            rcases eq_or_ne ps [] with rfl | hps0
            · exact hnp (List.cons_prefix_cons.mpr ⟨rfl, List.nil_prefix⟩)
            · have hrec : ps <+: cs := by
                refine pre_of_pre_replaceAllAux hb f cs ps (by simpa using hf) hps0 ?_ hps
                intro x hx
                exact hdisj x (List.mem_cons_of_mem _ hx)
              exact hnp (List.cons_prefix_cons.mpr ⟨rfl, hrec⟩)
        · exact ih cs (by simpa using hf) hinf

/-- If the pattern occurs in the input, the replacement string occurs in the
output. -/
theorem infix_replaceAllAux_of_infix {p b : List Char} (hp : p ≠ []) :
    ∀ f s, s.length ≤ f → p <:+: s → b <:+: replaceAllAux p b f s := by
  intro f
  induction f with
  | zero =>
    intro s hf h
    have hs : s = [] := List.length_eq_zero.mp (Nat.le_zero.mp hf)
    subst hs
    exact absurd (List.eq_nil_of_infix_nil h) hp
  | succ f ih =>
    intro s hf h
    match s with
    | [] => exact absurd (List.eq_nil_of_infix_nil h) hp
    | c :: cs =>
      simp only [replaceAllAux]
      split
      · exact (List.prefix_append b _).isInfix
      · rename_i hmatch
        have hnp : ¬ p <+: (c :: cs) := fun hc => hmatch ⟨hp, hc⟩
        rcases List.infix_cons_iff.mp h with hpre | hinf
        · exact absurd hpre hnp
        · exact List.infix_cons (ih cs (by simpa using hf) hinf)

/-- A prefix of the input whose characters avoid the pattern is still a prefix
of the output. -/
theorem pre_replaceAllAux_of_pre {p b : List Char} :
    ∀ f s t, s.length ≤ f → (∀ c ∈ t, c ∉ p) → t <+: s →
      t <+: replaceAllAux p b f s := by
  intro f
  induction f with
  | zero =>
    intro s t hf _ h
    have hs : s = [] := List.length_eq_zero.mp (Nat.le_zero.mp hf)
    subst hs
    rw [List.prefix_nil] at h
    subst h
    exact List.nil_prefix
  | succ f ih =>
    intro s t hf hdisj h
    match s with
    | [] =>
      rw [List.prefix_nil] at h
      subst h
      exact List.nil_prefix
    | c :: cs =>
      simp only [replaceAllAux]
      split
      · rename_i hmatch
        match t with
        | [] => exact List.nil_prefix
        | e :: ts =>
          obtain ⟨he, _⟩ := List.cons_prefix_cons.mp h
          obtain ⟨hpne, hps⟩ := hmatch
          match p, hpne with
          | d :: ps, _ =>
            obtain ⟨hd, _⟩ := List.cons_prefix_cons.mp hps
            refine absurd (?_ : e ∈ d :: ps) (hdisj e (List.mem_cons_self e ts))
            rw [he, ← hd]
            exact List.mem_cons_self _ _
      · match t with
        | [] => exact List.nil_prefix
        | e :: ts =>
          rcases List.cons_prefix_cons.mp h with ⟨rfl, hts⟩
          refine List.cons_prefix_cons.mpr ⟨rfl, ?_⟩
          refine ih cs ts (by simpa using hf) ?_ hts
          intro x hx
          exact hdisj x (List.mem_cons_of_mem _ hx)

/-- An infix of the input whose characters avoid the pattern survives the
replacement. -/
theorem infix_replaceAllAux_of_disj {p b : List Char} :
    ∀ f s t, s.length ≤ f → (∀ c ∈ t, c ∉ p) → t <:+: s →
      t <:+: replaceAllAux p b f s := by
  intro f
  induction f with
  | zero =>
    intro s t hf _ h
    have hs : s = [] := List.length_eq_zero.mp (Nat.le_zero.mp hf)
    subst hs
    rw [List.infix_nil] at h
    subst h
    exact List.nil_infix
  | succ f ih =>
    intro s t hf hdisj h
    match s with
    | [] =>
      rw [List.infix_nil] at h
      subst h
      exact List.nil_infix
    | c :: cs =>
      simp only [replaceAllAux]
      split
      · rename_i hmatch
        obtain ⟨hpne, hpre⟩ := hmatch
        obtain ⟨u, hu⟩ := hpre
        rw [← hu] at h
        have hdrop : List.drop p.length (c :: cs) = u := by
          rw [← hu, List.drop_left]
        rw [hdrop]
        rcases infix_append_split h with hL | hR | ⟨t₁, t₂, ht, ht₁, _, hsuf, _⟩
        · match t with
          | [] => exact List.nil_infix
          | e :: ts =>
            exact absurd (hL.subset (List.mem_cons_self _ _))
              (hdisj e (List.mem_cons_self _ _))
        · have hlen : u.length ≤ f := by
            have hp1 : 1 ≤ p.length := List.length_pos.mpr hpne
            have h2 : (c :: cs).length = p.length + u.length := by
              rw [← hu, List.length_append]
            simp only [List.length_cons] at h2 hf
            omega
          exact infix_append_of_right b (ih u t hlen hdisj hR)
        · match t₁, ht₁ with
          | e :: ts, _ =>
            refine absurd (hsuf.subset (List.mem_cons_self _ _)) (hdisj e ?_)
            rw [ht]
            exact List.mem_append_left _ (List.mem_cons_self _ _)
      · rcases List.infix_cons_iff.mp h with hpre | hinf
        · match t with
          | [] => exact List.nil_infix
          | e :: ts =>
            rcases List.cons_prefix_cons.mp hpre with ⟨rfl, hts⟩
            have hrec : ts <+: replaceAllAux p b f cs := by
              refine pre_replaceAllAux_of_pre f cs ts (by simpa using hf) ?_ hts
              intro x hx
              exact hdisj x (List.mem_cons_of_mem _ hx)
            exact (List.cons_prefix_cons.mpr ⟨rfl, hrec⟩).isInfix
        · exact List.infix_cons (ih cs t (by simpa using hf) hdisj hinf)

/-- An infix of the output of `replaceAllAux` whose characters avoid the
nonempty replacement string already occurred in the input. -/
theorem infix_of_infix_replaceAllAux {p b : List Char} (hb : b ≠ []) :
    ∀ f s t, s.length ≤ f → (∀ c ∈ t, c ∉ b) →
      t <:+: replaceAllAux p b f s → t <:+: s := by
  intro f
  induction f with
  | zero =>
    intro s t hf _ h
    have hs : s = [] := List.length_eq_zero.mp (Nat.le_zero.mp hf)
    subst hs
    simpa [replaceAllAux] using h
  | succ f ih =>
    intro s t hf hdisj h
    match s with
    | [] =>
      rw [replaceAllAux_nil] at h
      exact h
    | c :: cs =>
      simp only [replaceAllAux] at h
      split at h
      · rename_i hmatch
        obtain ⟨hpne, hpre⟩ := hmatch
        obtain ⟨u, hu⟩ := hpre
        have hdrop : List.drop p.length (c :: cs) = u := by
          rw [← hu, List.drop_left]
        rw [hdrop] at h
        rcases infix_append_split h with hL | hR | ⟨t₁, t₂, ht, ht₁, _, hsuf, _⟩
        · match t with
          | [] => exact List.nil_infix
          | e :: ts =>
            exact absurd (hL.subset (List.mem_cons_self _ _))
              (hdisj e (List.mem_cons_self _ _))
        · have hlen : u.length ≤ f := by
            have hp1 : 1 ≤ p.length := List.length_pos.mpr hpne
            have h2 : (c :: cs).length = p.length + u.length := by
              rw [← hu, List.length_append]
            simp only [List.length_cons] at h2 hf
            omega
          have hrec : t <:+: u := ih u t hlen hdisj hR
          rw [← hu]
          exact infix_append_of_right p hrec
        · match t₁, ht₁ with
          | e :: ts, _ =>
            refine absurd (hsuf.subset (List.mem_cons_self _ _)) (hdisj e ?_)
            rw [ht]
            exact List.mem_append_left _ (List.mem_cons_self _ _)
      · rcases List.infix_cons_iff.mp h with hpre | hinf
        · match t with
          | [] => exact List.nil_infix
          | e :: ts =>
            rcases List.cons_prefix_cons.mp hpre with ⟨rfl, hts⟩
            rcases eq_or_ne ts [] with rfl | hts0
            · exact (List.cons_prefix_cons.mpr ⟨rfl, List.nil_prefix⟩).isInfix
            · have hrec : ts <+: cs := by
                refine pre_of_pre_replaceAllAux hb f cs ts (by simpa using hf) hts0 ?_ hts
                intro x hx
                exact hdisj x (List.mem_cons_of_mem _ hx)
              exact (List.cons_prefix_cons.mpr ⟨rfl, hrec⟩).isInfix
        · exact List.infix_cons (ih cs t (by simpa using hf) hdisj hinf)

theorem lookupPath_dir_cons (ch : List (String × Entry)) (n : String)
    (rest : List String) :
    lookupPath (.dir ch) (n :: rest) =
      (match lookupChild ch n with
       | none => none
       | some e => lookupPath e rest) := rfl

theorem insertPath_dir_cons2 (ch : List (String × Entry)) (n m : String)
    (rest : List String) (v : Entry) :
    insertPath (.dir ch) (n :: m :: rest) v =
      (match insertPath ((lookupChild ch n).getD (.dir [])) (m :: rest) v with
       | .error e => .error e
       | .ok e => .ok (.dir (setChild ch n e))) := rfl

theorem erasePath_dir_cons2 (ch : List (String × Entry)) (n m : String)
    (rest : List String) :
    erasePath (.dir ch) (n :: m :: rest) =
      (match lookupChild ch n with
       | none => .dir ch
       | some e => .dir (setChild ch n (erasePath e (m :: rest)))) := rfl

theorem writable_dir_cons2 (ch : List (String × Entry)) (n m : String)
    (rest : List String) :
    writable (.dir ch) (n :: m :: rest) =
      (match lookupChild ch n with
       | none => true
       | some e => writable e (m :: rest)) := rfl

theorem lookupChild_setChild_self (l : List (String × Entry)) (n : String)
    (v : Entry) : lookupChild (setChild l n v) n = some v := by
  induction l with
  | nil => simp [setChild, lookupChild]
  | cons he rest ih =>
    obtain ⟨m, e⟩ := he
    by_cases h : m = n
    · simp [setChild, h, lookupChild]
    · simp [setChild, h, lookupChild, ih]

theorem lookupChild_setChild_ne {m n : String} (l : List (String × Entry))
    (v : Entry) (h : m ≠ n) :
    lookupChild (setChild l n v) m = lookupChild l m := by
  induction l with
  | nil => simp [setChild, lookupChild, Ne.symm h]
  | cons he rest ih =>
    obtain ⟨k, e⟩ := he
    by_cases hk : k = n
    · subst hk
      simp [setChild, lookupChild, Ne.symm h]
    · simp only [setChild, if_neg hk, lookupChild]
      by_cases hm : k = m
      · simp [hm]
      · simp [hm, ih]

theorem lookupChild_eraseChild_self (l : List (String × Entry)) (n : String) :
    lookupChild (eraseChild l n) n = none := by
  induction l with
  | nil => simp [eraseChild, lookupChild]
  | cons he rest ih =>
    obtain ⟨m, e⟩ := he
    by_cases h : m = n
    · simp [eraseChild, h, ih]
    · simp [eraseChild, h, lookupChild, ih]

theorem lookupChild_eraseChild_ne {m n : String} (l : List (String × Entry))
    (h : m ≠ n) : lookupChild (eraseChild l n) m = lookupChild l m := by
  induction l with
  | nil => simp [eraseChild]
  | cons he rest ih =>
    obtain ⟨k, e⟩ := he
    by_cases hk : k = n
    · subst hk
      simp [eraseChild, lookupChild, Ne.symm h, ih]
    · simp only [eraseChild, if_neg hk, lookupChild]
      by_cases hm : k = m
      · simp [hm]
      · simp [hm, ih]

theorem setChild_of_lookup_self {l : List (String × Entry)} {n : String}
    {e : Entry} (h : lookupChild l n = some e) : setChild l n e = l := by
  induction l with
  | nil => simp [lookupChild] at h
  | cons he rest ih =>
    obtain ⟨m, e'⟩ := he
    by_cases hm : m = n
    · subst hm
      simp only [lookupChild, if_pos rfl] at h
      obtain rfl : e' = e := by injection h
      simp [setChild]
    · simp only [lookupChild, if_neg hm] at h
      simp [setChild, hm, ih h]

theorem eraseChild_of_lookup_none {l : List (String × Entry)} {n : String}
    (h : lookupChild l n = none) : eraseChild l n = l := by
  induction l with
  | nil => rfl
  | cons he rest ih =>
    obtain ⟨m, e⟩ := he
    by_cases hm : m = n
    · subst hm
      simp [lookupChild] at h
    · simp only [lookupChild, if_neg hm] at h
      simp [eraseChild, hm, ih h]

theorem setChild_of_lookup_none {l : List (String × Entry)} {n : String}
    {v : Entry} (h : lookupChild l n = none) : setChild l n v = l ++ [(n, v)] := by
  induction l with
  | nil => rfl
  | cons he rest ih =>
    obtain ⟨m, e⟩ := he
    by_cases hm : m = n
    · subst hm
      simp [lookupChild] at h
    · simp only [lookupChild, if_neg hm] at h
      simp [setChild, hm, ih h]

theorem lookupChild_append (l1 l2 : List (String × Entry)) (n : String) :
    lookupChild (l1 ++ l2) n =
      match lookupChild l1 n with
      | some e => some e
      | none => lookupChild l2 n := by
  induction l1 with
  | nil => simp [lookupChild]
  | cons he rest ih =>
    obtain ⟨k, e⟩ := he
    by_cases hk : k = n
    · simp [lookupChild, hk]
    · simp [lookupChild, hk, ih]

theorem lookupPath_append : ∀ (fs : Entry) (p q : List String),
    lookupPath fs (p ++ q) = (lookupPath fs p).bind (fun e => lookupPath e q)
  | _, [], _ => by simp [lookupPath]
  | .file c m, n :: rest, q => by simp [lookupPath]
  | .dir ch, n :: rest, q => by
    cases hc : lookupChild ch n with
    | none => simp [lookupPath, hc]
    | some e => simp [lookupPath, hc, lookupPath_append e rest q]

theorem lookupPath_insertPath_self : ∀ (fs : Entry) (p : List String) (v fs' : Entry),
    insertPath fs p v = .ok fs' → lookupPath fs' p = some v
  | _, [], v, fs', h => by
    simp only [insertPath, Except.ok.injEq] at h
    subst h
    rfl
  | .file c m, n :: rest, v, fs', h => by simp [insertPath] at h
  | .dir ch, [n], v, fs', h => by
    simp only [insertPath, Except.ok.injEq] at h
    subst h
    simp [lookupPath, lookupChild_setChild_self]
  | .dir ch, n :: m :: rest, v, fs', h => by
    cases he : insertPath ((lookupChild ch n).getD (.dir [])) (m :: rest) v with
    | error u => simp [insertPath, he] at h
    | ok e =>
      simp only [insertPath, he, Except.ok.injEq] at h
      subst h
      rw [lookupPath_dir_cons, lookupChild_setChild_self]
      exact lookupPath_insertPath_self _ (m :: rest) v e he

theorem writable_emptyDir : ∀ p : List String, writable (.dir []) p = true
  | [] => rfl
  | [_] => rfl
  | _ :: _ :: _ => rfl

theorem insertPath_ok_of_writable : ∀ (fs : Entry) (p : List String) (v : Entry),
    writable fs p = true → ∃ fs', insertPath fs p v = .ok fs'
  | _, [], v, _ => ⟨v, rfl⟩
  | .file c m, n :: rest, v, h => by simp [writable] at h
  | .dir ch, [n], v, _ => ⟨_, rfl⟩
  | .dir ch, n :: m :: rest, v, h => by
    have h' : writable ((lookupChild ch n).getD (.dir [])) (m :: rest) = true := by
      cases hc : lookupChild ch n with
      | none => simpa [hc] using writable_emptyDir (m :: rest)
      | some e => simpa [writable, hc] using h
    obtain ⟨e, he⟩ := insertPath_ok_of_writable _ (m :: rest) v h'
    exact ⟨.dir (setChild ch n e), by rw [insertPath_dir_cons2, he]⟩

theorem insertPath_err_of_not_writable : ∀ (fs : Entry) (p : List String) (v : Entry),
    writable fs p = false → insertPath fs p v = .error ()
  | _, [], v, h => by simp [writable] at h
  | .file c m, n :: rest, v, _ => rfl
  | .dir ch, [n], v, h => by simp [writable] at h
  | .dir ch, n :: m :: rest, v, h => by
    cases hc : lookupChild ch n with
    | none => simp [writable, hc] at h
    | some e =>
      have h' : writable e (m :: rest) = false := by simpa [writable, hc] using h
      simp [insertPath, hc, insertPath_err_of_not_writable e (m :: rest) v h']

theorem lookupPath_setPathD_self {fs : Entry} {p : List String} {v : Entry}
    (h : writable fs p = true) : lookupPath (setPathD fs p v) p = some v := by
  obtain ⟨fs', he⟩ := insertPath_ok_of_writable fs p v h
  simp only [setPathD, he]
  exact lookupPath_insertPath_self _ _ _ _ he

theorem lookupPath_insertPath_frame : ∀ (fs : Entry) (p : List String) (v fs' : Entry)
    (q : List String), insertPath fs p v = .ok fs' → ¬ p <+: q → ¬ q <+: p →
    lookupPath fs' q = lookupPath fs q
  | _, [], v, fs', q, _, h1, _ => absurd List.nil_prefix h1
  | .file c m, n :: rest, v, fs', q, h, _, _ => by simp [insertPath] at h
  | .dir ch, [n], v, fs', q, h, h1, h2 => by
    simp only [insertPath, Except.ok.injEq] at h
    subst h
    match q with
    | [] => exact absurd List.nil_prefix h2
    | m :: q' =>
      by_cases hm : m = n
      · subst hm
        exact absurd (List.cons_prefix_cons.mpr ⟨rfl, List.nil_prefix⟩) h1
      · simp [lookupPath, lookupChild_setChild_ne _ _ hm]
  | .dir ch, n :: m₀ :: rest, v, fs', q, h, h1, h2 => by
    cases he : insertPath ((lookupChild ch n).getD (.dir [])) (m₀ :: rest) v with
    | error u => simp [insertPath, he] at h
    | ok e =>
      simp only [insertPath, he, Except.ok.injEq] at h
      subst h
      match q with
      | [] => exact absurd List.nil_prefix h2
      | m :: q' =>
        by_cases hm : m = n
        · subst hm
          have h1' : ¬ (m₀ :: rest) <+: q' :=
            fun hc => h1 (List.cons_prefix_cons.mpr ⟨rfl, hc⟩)
          have h2' : ¬ q' <+: (m₀ :: rest) :=
            fun hc => h2 (List.cons_prefix_cons.mpr ⟨rfl, hc⟩)
          have hfr := lookupPath_insertPath_frame _ (m₀ :: rest) v e q' he h1' h2'
          cases hc : lookupChild ch m with
          | some e₀ =>
            rw [hc] at hfr
            simp only [Option.getD] at hfr
            simp [lookupPath, lookupChild_setChild_self, hc, hfr]
          | none =>
            rw [hc] at hfr
            match q' with
            | [] => exact absurd (List.cons_prefix_cons.mpr ⟨rfl, List.nil_prefix⟩) h2
            | x :: q'' =>
              simp only [lookupPath, lookupChild_setChild_self, hc]
              simpa [lookupPath, lookupChild] using hfr
        · simp [lookupPath, lookupChild_setChild_ne _ _ hm]

theorem lookupPath_setPathD_frame {fs : Entry} {p q : List String} {v : Entry}
    (h1 : ¬ p <+: q) (h2 : ¬ q <+: p) :
    lookupPath (setPathD fs p v) q = lookupPath fs q := by
  cases he : insertPath fs p v with
  | ok f =>
    simp only [setPathD, he]
    exact lookupPath_insertPath_frame fs p v f q he h1 h2
  | error u => simp [setPathD, he]

theorem lookupPath_erasePath_self : ∀ (fs : Entry) (p : List String), p ≠ [] →
    lookupPath (erasePath fs p) p = none
  | _, [], h => absurd rfl h
  | .file c m, n :: rest, _ => by simp [erasePath, lookupPath]
  | .dir ch, [n], _ => by simp [erasePath, lookupPath, lookupChild_eraseChild_self]
  | .dir ch, n :: m :: rest, _ => by
    cases hc : lookupChild ch n with
    | none => simp [erasePath, hc, lookupPath]
    | some e =>
      rw [erasePath_dir_cons2, hc, lookupPath_dir_cons, lookupChild_setChild_self]
      exact lookupPath_erasePath_self e (m :: rest) (by simp)

theorem lookupPath_erasePath_frame : ∀ (fs : Entry) (p q : List String),
    ¬ p <+: q → ¬ q <+: p → lookupPath (erasePath fs p) q = lookupPath fs q
  | _, [], q, h1, _ => absurd List.nil_prefix h1
  | .file c m, n :: rest, q, _, _ => by simp [erasePath]
  | .dir ch, [n], q, h1, h2 => by
    match q with
    | [] => exact absurd List.nil_prefix h2
    | m :: q' =>
      by_cases hm : m = n
      · subst hm
        exact absurd (List.cons_prefix_cons.mpr ⟨rfl, List.nil_prefix⟩) h1
      · simp [erasePath, lookupPath, lookupChild_eraseChild_ne _ hm]
  | .dir ch, n :: m₀ :: rest, q, h1, h2 => by
    cases hc : lookupChild ch n with
    | none => simp [erasePath, hc]
    | some e =>
      match q with
      | [] => exact absurd List.nil_prefix h2
      | m :: q' =>
        by_cases hm : m = n
        · subst hm
          have h1' : ¬ (m₀ :: rest) <+: q' :=
            fun hp => h1 (List.cons_prefix_cons.mpr ⟨rfl, hp⟩)
          have h2' : ¬ q' <+: (m₀ :: rest) :=
            fun hp => h2 (List.cons_prefix_cons.mpr ⟨rfl, hp⟩)
          simp [erasePath, hc, lookupPath, lookupChild_setChild_self,
            lookupPath_erasePath_frame e (m₀ :: rest) q' h1' h2']
        · simp [erasePath, hc, lookupPath, lookupChild_setChild_ne _ _ hm]

theorem erasePath_of_lookup_none : ∀ (fs : Entry) (p : List String),
    lookupPath fs p = none → erasePath fs p = fs
  | _, [], h => by simp [lookupPath] at h
  | .file c m, n :: rest, _ => rfl
  | .dir ch, [n], h => by
    have hc : lookupChild ch n = none := by
      cases hc : lookupChild ch n with
      | none => rfl
      | some e => simp [lookupPath, hc] at h
    simp [erasePath, eraseChild_of_lookup_none hc]
  | .dir ch, n :: m :: rest, h => by
    cases hc : lookupChild ch n with
    | none => simp [erasePath, hc]
    | some e =>
      have h' : lookupPath e (m :: rest) = none := by simpa [lookupPath, hc] using h
      simp [erasePath, hc, erasePath_of_lookup_none e (m :: rest) h',
        setChild_of_lookup_self hc]

theorem writable_of_lookup_isSome : ∀ (fs : Entry) (p : List String),
    (lookupPath fs p).isSome → writable fs p = true
  | _, [], _ => rfl
  | .file c m, n :: rest, h => by simp [lookupPath] at h
  | .dir ch, [n], _ => rfl
  | .dir ch, n :: m :: rest, h => by
    cases hc : lookupChild ch n with
    | none => simp [lookupPath, hc] at h
    | some e =>
      have h' : (lookupPath e (m :: rest)).isSome := by simpa [lookupPath, hc] using h
      simp [writable, hc, writable_of_lookup_isSome e (m :: rest) h']

theorem lookup_dir_of_lookup_append {fs e : Entry} {q r : List String}
    (h : lookupPath fs (q ++ r) = some e) (hr : r ≠ []) :
    ∃ ch, lookupPath fs q = some (.dir ch) := by
  rw [lookupPath_append] at h
  cases he : lookupPath fs q with
  | none => rw [he] at h; simp at h
  | some e₀ =>
    rw [he, Option.some_bind] at h
    cases e₀ with
    | dir ch => exact ⟨ch, rfl⟩
    | file c m =>
      match r, hr with
      | x :: r', _ => simp [lookupPath] at h

theorem writable_append_of_dir : ∀ (fs : Entry) (q : List String)
    (ch₀ : List (String × Entry)) (x : String),
    lookupPath fs q = some (.dir ch₀) → writable fs (q ++ [x]) = true
  | fs, [], ch₀, x, h => by
    simp only [lookupPath, Option.some.injEq] at h
    subst h
    rfl
  | .file c m, n :: rest, ch₀, x, h => by simp [lookupPath] at h
  | .dir ch, n :: rest, ch₀, x, h => by
    cases hc : lookupChild ch n with
    | none => simp [lookupPath, hc] at h
    | some e =>
      have h' : lookupPath e rest = some (.dir ch₀) := by simpa [lookupPath, hc] using h
      cases rest with
      | nil =>
        simp only [lookupPath, Option.some.injEq] at h'
        subst h'
        show writable (.dir ch) (n :: [x]) = true
        rw [writable_dir_cons2, hc]
        rfl
      | cons r rs =>
        show writable (.dir ch) (n :: (r :: (rs ++ [x]))) = true
        rw [writable_dir_cons2, hc]
        exact writable_append_of_dir e (r :: rs) ch₀ x h'

theorem writable_erasePath : ∀ (fs : Entry) (p q : List String),
    writable fs q = true → writable (erasePath fs p) q = true
  | _, [], q, h => by simpa [erasePath] using h
  | .file c m, p₁ :: pr, q, h => by simpa [erasePath] using h
  | .dir ch, [n], q, h => by
    match q with
    | [] => rfl
    | [x] => rfl
    | x :: y :: qr =>
      by_cases hx : x = n
      · subst hx
        simp [writable, lookupChild_eraseChild_self]
      · cases hc : lookupChild ch x with
        | none => simp [writable, lookupChild_eraseChild_ne _ hx, hc]
        | some e =>
          have h' : writable e (y :: qr) = true := by simpa [writable, hc] using h
          simp [writable, lookupChild_eraseChild_ne _ hx, hc, h']
  | .dir ch, n :: p₂ :: pr, q, h => by
    cases hcn : lookupChild ch n with
    | none => simpa [erasePath, hcn] using h
    | some e =>
      match q with
      | [] => rfl
      | [x] =>
        rw [erasePath_dir_cons2, hcn]
        rfl
      | x :: y :: qr =>
        by_cases hx : x = n
        · subst hx
          have h' : writable e (y :: qr) = true := by simpa [writable, hcn] using h
          rw [erasePath_dir_cons2, hcn, writable_dir_cons2, lookupChild_setChild_self]
          exact writable_erasePath e (p₂ :: pr) (y :: qr) h'
        · cases hc : lookupChild ch x with
          | none =>
            rw [erasePath_dir_cons2, hcn, writable_dir_cons2,
              lookupChild_setChild_ne _ _ hx, hc]
          | some e' =>
            have h' : writable e' (y :: qr) = true := by simpa [writable, hc] using h
            rw [erasePath_dir_cons2, hcn, writable_dir_cons2,
              lookupChild_setChild_ne _ _ hx, hc]
            exact h'

theorem writable_insertPath : ∀ (fs : Entry) (p : List String) (v fs' : Entry)
    (q : List String), insertPath fs p v = .ok fs' → ¬ p <+: q →
    writable fs q = true → writable fs' q = true
  | _, [], v, fs', q, _, h1, _ => absurd List.nil_prefix h1
  | .file c m, p₁ :: pr, v, fs', q, h, _, _ => by simp [insertPath] at h
  | .dir ch, [n], v, fs', q, h, h1, hw => by
    simp only [insertPath, Except.ok.injEq] at h
    subst h
    match q with
    | [] => rfl
    | [x] => rfl
    | x :: y :: qr =>
      by_cases hx : x = n
      · subst hx
        exact absurd (List.cons_prefix_cons.mpr ⟨rfl, List.nil_prefix⟩) h1
      · cases hc : lookupChild ch x with
        | none => simp [writable, lookupChild_setChild_ne _ _ hx, hc]
        | some e =>
          have h' : writable e (y :: qr) = true := by simpa [writable, hc] using hw
          simp [writable, lookupChild_setChild_ne _ _ hx, hc, h']
  | .dir ch, n :: p₂ :: pr, v, fs', q, h, h1, hw => by
    cases he : insertPath ((lookupChild ch n).getD (.dir [])) (p₂ :: pr) v with
    | error u => simp [insertPath, he] at h
    | ok e =>
      simp only [insertPath, he, Except.ok.injEq] at h
      subst h
      match q with
      | [] => rfl
      | [x] => rfl
      | x :: y :: qr =>
        by_cases hx : x = n
        · subst hx
          have h1' : ¬ (p₂ :: pr) <+: (y :: qr) :=
            fun hp => h1 (List.cons_prefix_cons.mpr ⟨rfl, hp⟩)
          cases hc : lookupChild ch x with
          | none =>
            have hrec := writable_insertPath _ (p₂ :: pr) v e (y :: qr)
              (by simpa [hc] using he) h1' (writable_emptyDir _)
            simp [writable, lookupChild_setChild_self, hrec]
          | some e₀ =>
            have hw' : writable e₀ (y :: qr) = true := by simpa [writable, hc] using hw
            have hrec := writable_insertPath e₀ (p₂ :: pr) v e (y :: qr)
              (by simpa [hc] using he) h1' hw'
            simp [writable, lookupChild_setChild_self, hrec]
        · cases hc : lookupChild ch x with
          | none => simp [writable, lookupChild_setChild_ne _ _ hx, hc]
          | some e₀ =>
            have h' : writable e₀ (y :: qr) = true := by simpa [writable, hc] using hw
            simp [writable, lookupChild_setChild_ne _ _ hx, hc, h']

theorem writable_setPathD {fs : Entry} {p q : List String} {v : Entry}
    (h1 : ¬ p <+: q) (hw : writable fs q = true) :
    writable (setPathD fs p v) q = true := by
  cases he : insertPath fs p v with
  | ok f =>
    simp only [setPathD, he]
    exact writable_insertPath fs p v f q he h1 hw
  | error u => simpa [setPathD, he] using hw

theorem pathIncomp_of_ne {r : List String} {a b : String} (u v : List String)
    (h : a ≠ b) : PathIncomp (r ++ a :: u) (r ++ b :: v) := by
  constructor
  · intro hc
    rw [List.prefix_append_right_inj] at hc
    exact h (List.cons_prefix_cons.mp hc).1
  · intro hc
    rw [List.prefix_append_right_inj] at hc
    exact h ((List.cons_prefix_cons.mp hc).1).symm

/-! ### Elementary facts about the reset step and the fixed paths -/

theorem resetStagingFs_frame {cfg : Cfg} {o : Oracle} {fs0 : Entry}
    {q : List String} (h : PathIncomp (targetFolder cfg) q) :
    lookupPath (resetStagingFs cfg o fs0) q = lookupPath fs0 q := by
  unfold resetStagingFs
  split
  · cases o.stagingRm with
    | ok => exact lookupPath_erasePath_frame _ _ _ h.1 h.2
    | fail r => exact lookupPath_setPathD_frame h.1 h.2
  · rfl

theorem resetStagingFs_self_ok {cfg : Cfg} {o : Oracle} {fs0 : Entry}
    (h : o.stagingRm = RmO.ok) :
    lookupPath (resetStagingFs cfg o fs0) (targetFolder cfg) = none := by
  unfold resetStagingFs
  split
  · rw [h]
    exact lookupPath_erasePath_self _ _ (by simp [targetFolder])
  · rename_i hne
    cases hl : lookupPath fs0 (targetFolder cfg) with
    | none => rfl
    | some e =>
      exact absurd (show pathExists fs0 (targetFolder cfg) = true by
        simp [pathExists, hl]) hne

theorem incomp_target_source (cfg : Cfg) (config dv : String) :
    PathIncomp (targetFolder cfg) (sourceBinariesFolder cfg config dv) := by
  unfold targetFolder sourceBinariesFolder
  exact pathIncomp_of_ne _ _ (by decide)

theorem incomp_target_template (cfg : Cfg) :
    PathIncomp (targetFolder cfg) (templateFolder cfg) := by
  unfold targetFolder templateFolder
  exact pathIncomp_of_ne _ _ (by decide)

theorem incomp_core_revit (cfg : Cfg) (iv : String) :
    PathIncomp (packageTargetFolder cfg iv) (packageTargetFolderRevit cfg iv) := by
  have h : PathIncomp
      ((cfg.appdata ++ ["Dynamo"]) ++ "Dynamo Core" :: [iv, "packages", "DataExchangeNodes"])
      ((cfg.appdata ++ ["Dynamo"]) ++ "Dynamo Revit" :: [iv, "packages", "DataExchangeNodes"]) :=
    pathIncomp_of_ne _ _ (by decide)
  simpa [packageTargetFolder, packageTargetFolderRevit, List.append_assoc] using h

/-- When the source binaries directory is absent, the run stops right after
the (already performed) staging reset, printing the incomplete-build report
and exiting with status 1. -/
theorem main_src_absent {cfg : Cfg} {o : Oracle} {p config dv iv : String}
    {fs0 : Entry}
    (hsrc : lookupPath fs0 (sourceBinariesFolder cfg config dv) = none) :
    prepareDynamoPackage.main cfg o [p, config, dv, iv] fs0 =
      ⟨resetStagingFs cfg o fs0,
       resetStagingLog cfg o fs0 ++
         incompleteLines (sourceBinariesFolder cfg config dv) (templateFolder cfg),
       1⟩ := by
  have hfr : lookupPath (resetStagingFs cfg o fs0)
      (sourceBinariesFolder cfg config dv) = none := by
    rw [resetStagingFs_frame (incomp_target_source cfg config dv)]
    exact hsrc
  simp [prepareDynamoPackage.main, pathExists, hfr]

/-! ### Claim theorems -/

/-- C7: for every invocation with fewer or more than four parameters, the
deployer prints the usage diagnostic and returns normally without touching the
filesystem: the final filesystem is exactly the initial one. -/
theorem C7_usage_error_no_side_effects (cfg : Cfg) (o : Oracle)
    (args : List String) (fs0 : Entry) (h : args.length ≠ 4) :
    prepareDynamoPackage.main cfg o args fs0 =
      ⟨fs0, [msgStart, msgUsage], 0⟩ := by
  match args with
  | [] => rfl
  | [a] => rfl
  | [a, b] => rfl
  | [a, b, c] => rfl
  | [a, b, c, d] => simp at h
  | a :: b :: c :: d :: e :: t => rfl

/-- Witness for C7 at the empty parameter list. -/
theorem C7_usage_error_no_side_effects_witness :
    ([] : List String).length ≠ 4 ∧
      prepareDynamoPackage.main ⟨["r"], ["a"]⟩ Oracle.allOk [] (.dir []) =
        ⟨.dir [], [msgStart, msgUsage], 0⟩ :=
  ⟨by decide, C7_usage_error_no_side_effects ⟨["r"], ["a"]⟩ Oracle.allOk []
    (.dir []) (by decide)⟩

/-- C9: two invocations that differ only in the first (platform) parameter
produce identical results — filesystem, log and exit status: the platform
parameter never influences behaviour. -/
theorem C9_platform_never_influences_behaviour (cfg : Cfg) (o : Oracle)
    (p p' : String) (rest : List String) (fs0 : Entry) :
    prepareDynamoPackage.main cfg o (p :: rest) fs0 =
      prepareDynamoPackage.main cfg o (p' :: rest) fs0 := by
  match rest with
  | [] => rfl
  | [b] => rfl
  | [b, c] => rfl
  | [b, c, d] => rfl
  | b :: c :: d :: e :: t => rfl

/-- C2: with exactly four parameters and the source binaries directory absent,
no destination install directory is created or modified and the process exits
with the non-zero status 1 (for destinations not nested in the staging
directory, which lives under the tool root while destinations live under the
user application-data root). -/
theorem C2_missing_source_signals_failure (cfg : Cfg) (o : Oracle)
    (p config dv iv : String) (fs0 : Entry)
    (hsrc : lookupPath fs0 (sourceBinariesFolder cfg config dv) = none)
    (hc : PathIncomp (targetFolder cfg) (packageTargetFolder cfg iv))
    (hr : PathIncomp (targetFolder cfg) (packageTargetFolderRevit cfg iv)) :
    (prepareDynamoPackage.main cfg o [p, config, dv, iv] fs0).exitCode = 1 ∧
    lookupPath (prepareDynamoPackage.main cfg o [p, config, dv, iv] fs0).fs
        (packageTargetFolder cfg iv) =
      lookupPath fs0 (packageTargetFolder cfg iv) ∧
    lookupPath (prepareDynamoPackage.main cfg o [p, config, dv, iv] fs0).fs
        (packageTargetFolderRevit cfg iv) =
      lookupPath fs0 (packageTargetFolderRevit cfg iv) := by
  rw [main_src_absent hsrc]
  exact ⟨rfl, resetStagingFs_frame hc, resetStagingFs_frame hr⟩

/-- Witness for C2 at a concrete state with the build output missing. -/
theorem C2_missing_source_signals_failure_witness :
    lookupPath c2fs (sourceBinariesFolder c2cfg "cfg" "1.0") = none ∧
    ((prepareDynamoPackage.main c2cfg Oracle.allOk ["w", "cfg", "1.0", "4.1"] c2fs).exitCode = 1 ∧
     lookupPath (prepareDynamoPackage.main c2cfg Oracle.allOk ["w", "cfg", "1.0", "4.1"] c2fs).fs
         (packageTargetFolder c2cfg "4.1") =
       lookupPath c2fs (packageTargetFolder c2cfg "4.1") ∧
     lookupPath (prepareDynamoPackage.main c2cfg Oracle.allOk ["w", "cfg", "1.0", "4.1"] c2fs).fs
         (packageTargetFolderRevit c2cfg "4.1") =
       lookupPath c2fs (packageTargetFolderRevit c2cfg "4.1")) :=
  ⟨rfl, C2_missing_source_signals_failure c2cfg Oracle.allOk "w" "cfg" "1.0" "4.1"
    c2fs rfl (by decide) (by decide)⟩

/-- C3 is false as stated: on an invocation with four parameters, an absent
source binaries directory and a pre-existing staging directory, the deployer
removes the staging directory before checking the precondition, so the staging
directory is not left unchanged — it is gone after the aborted run. -/
theorem C3_counterexample :
    lookupPath c3fs (targetFolder c3cfg) = some (.dir [("stale", .file "x" 1)]) ∧
    lookupPath (prepareDynamoPackage.main c3cfg Oracle.allOk
        ["w", "cfg", "1.0", "4.1"] c3fs).fs (targetFolder c3cfg) = none ∧
    (prepareDynamoPackage.main c3cfg Oracle.allOk
        ["w", "cfg", "1.0", "4.1"] c3fs).exitCode = 1 :=
  ⟨rfl, rfl, rfl⟩

/-- C3 amended: the staging reset precedes the existence check.  With four
parameters, an absent source binaries directory and a successful removal, the
deployer aborts with exit status 1 having already removed any pre-existing
staging directory; destination install directories are untouched. -/
theorem C3_amended_reset_precedes_check (cfg : Cfg) (o : Oracle)
    (p config dv iv : String) (fs0 : Entry)
    (hsrc : lookupPath fs0 (sourceBinariesFolder cfg config dv) = none)
    (hrm : o.stagingRm = RmO.ok)
    (hc : PathIncomp (targetFolder cfg) (packageTargetFolder cfg iv))
    (hr : PathIncomp (targetFolder cfg) (packageTargetFolderRevit cfg iv)) :
    (prepareDynamoPackage.main cfg o [p, config, dv, iv] fs0).exitCode = 1 ∧
    lookupPath (prepareDynamoPackage.main cfg o [p, config, dv, iv] fs0).fs
      (targetFolder cfg) = none ∧
    lookupPath (prepareDynamoPackage.main cfg o [p, config, dv, iv] fs0).fs
        (packageTargetFolder cfg iv) =
      lookupPath fs0 (packageTargetFolder cfg iv) ∧
    lookupPath (prepareDynamoPackage.main cfg o [p, config, dv, iv] fs0).fs
        (packageTargetFolderRevit cfg iv) =
      lookupPath fs0 (packageTargetFolderRevit cfg iv) := by
  rw [main_src_absent hsrc]
  exact ⟨rfl, resetStagingFs_self_ok hrm, resetStagingFs_frame hc,
    resetStagingFs_frame hr⟩

/-- Witness for the amended C3 at a concrete state with a stale staging
directory. -/
theorem C3_amended_reset_precedes_check_witness :
    lookupPath c3fs (sourceBinariesFolder c3cfg "cfg" "1.0") = none ∧
    Oracle.allOk.stagingRm = RmO.ok ∧
    ((prepareDynamoPackage.main c3cfg Oracle.allOk ["w", "cfg", "1.0", "4.1"] c3fs).exitCode = 1 ∧
     lookupPath (prepareDynamoPackage.main c3cfg Oracle.allOk ["w", "cfg", "1.0", "4.1"] c3fs).fs
       (targetFolder c3cfg) = none ∧
     lookupPath (prepareDynamoPackage.main c3cfg Oracle.allOk ["w", "cfg", "1.0", "4.1"] c3fs).fs
         (packageTargetFolder c3cfg "4.1") =
       lookupPath c3fs (packageTargetFolder c3cfg "4.1") ∧
     lookupPath (prepareDynamoPackage.main c3cfg Oracle.allOk ["w", "cfg", "1.0", "4.1"] c3fs).fs
         (packageTargetFolderRevit c3cfg "4.1") =
       lookupPath c3fs (packageTargetFolderRevit c3cfg "4.1")) :=
  ⟨rfl, rfl, C3_amended_reset_precedes_check c3cfg Oracle.allOk "w" "cfg" "1.0" "4.1"
    c3fs rfl rfl (by decide) (by decide)⟩

/-! ### The makedirs step -/

theorem ensureChildDir_ok {l : List (String × Entry)} {n : String}
    (h : isFileO (lookupChild l n) = false) :
    ∃ l', ensureChildDir l n = .ok l' := by
  unfold ensureChildDir
  cases hc : lookupChild l n with
  | none => exact ⟨_, rfl⟩
  | some e =>
    cases e with
    | dir d => exact ⟨_, rfl⟩
    | file c m => simp [isFileO, hc] at h

theorem ensureChildDir_lookup_ne {l l' : List (String × Entry)} {n m : String}
    (h : ensureChildDir l n = .ok l') (hm : m ≠ n) :
    lookupChild l' m = lookupChild l m := by
  unfold ensureChildDir at h
  cases hc : lookupChild l n with
  | none =>
    rw [hc] at h
    simp only [Except.ok.injEq] at h
    subst h
    induction l with
    | nil => simp [lookupChild, Ne.symm hm]
    | cons he rest ih =>
      obtain ⟨k, e⟩ := he
      simp only [lookupChild] at hc ⊢
      by_cases hk : k = m
      · simp [hk]
      · simp only [if_neg hk] at hc ⊢
        by_cases hkn : k = n
        · simp [hkn] at hc
        · exact ih (by simpa [hkn] using hc)
  | some e =>
    rw [hc] at h
    cases e with
    | dir d =>
      simp only [Except.ok.injEq] at h
      subst h
      rfl
    | file c mm => simp at h

theorem ensureChildDir_self_dir {l l' : List (String × Entry)} {n : String}
    (h : ensureChildDir l n = .ok l') :
    ∃ d, lookupChild l' n = some (.dir d) := by
  unfold ensureChildDir at h
  cases hc : lookupChild l n with
  | none =>
    rw [hc] at h
    simp only [Except.ok.injEq] at h
    subst h
    refine ⟨[], ?_⟩
    induction l with
    | nil => simp [lookupChild]
    | cons he rest ih =>
      obtain ⟨k, e⟩ := he
      simp only [lookupChild] at hc ⊢
      by_cases hk : k = n
      · simp [hk] at hc
      · simp only [if_neg hk]
        exact ih (by simpa [hk] using hc)
  | some e =>
    rw [hc] at h
    cases e with
    | dir d =>
      simp only [Except.ok.injEq] at h
      subst h
      exact ⟨d, hc⟩
    | file c mm => simp at h

theorem ensureChildDir_lookup_self {l l' : List (String × Entry)} {n : String}
    (hnf : isFileO (lookupChild l n) = false)
    (h : ensureChildDir l n = .ok l') :
    lookupChild l' n =
      some (.dir (match lookupChild l n with | some (.dir d) => d | _ => [])) := by
  unfold ensureChildDir at h
  cases hc : lookupChild l n with
  | none =>
    rw [hc] at h
    simp only [Except.ok.injEq] at h
    subst h
    simp [lookupChild_append, hc, lookupChild]
  | some e =>
    cases e with
    | dir d =>
      rw [hc] at h
      simp only [Except.ok.injEq] at h
      subst h
      simp [hc]
    | file c mm =>
      simp [isFileO, hc] at hnf

theorem ensureDirs_ok {tch : List (String × Entry)}
    (hb : isFileO (lookupChild tch "bin") = false)
    (hd : isFileO (lookupChild tch "dyf") = false)
    (he : isFileO (lookupChild tch "extra") = false) :
    ∃ ch2, ensureDirs tch = .ok ch2 ∧
      lookupChild ch2 "pkg.json" = lookupChild tch "pkg.json" ∧
      lookupChild ch2 "bin" = some (.dir (binBase tch)) := by
  obtain ⟨t1, h1⟩ := ensureChildDir_ok hb
  have hd1 : isFileO (lookupChild t1 "dyf") = false := by
    rw [ensureChildDir_lookup_ne h1 (by decide)]
    exact hd
  obtain ⟨t2, h2⟩ := ensureChildDir_ok hd1
  have he2 : isFileO (lookupChild t2 "extra") = false := by
    rw [ensureChildDir_lookup_ne h2 (by decide),
      ensureChildDir_lookup_ne h1 (by decide)]
    exact he
  obtain ⟨t3, h3⟩ := ensureChildDir_ok he2
  refine ⟨t3, ?_, ?_, ?_⟩
  · unfold ensureDirs
    simp [h1, h2, h3]
  · rw [ensureChildDir_lookup_ne h3 (by decide),
      ensureChildDir_lookup_ne h2 (by decide),
      ensureChildDir_lookup_ne h1 (by decide)]
  · have hb1 : lookupChild t1 "bin" = some (.dir (binBase tch)) :=
      ensureChildDir_lookup_self hb h1
    rw [ensureChildDir_lookup_ne h3 (by decide),
      ensureChildDir_lookup_ne h2 (by decide)]
    exact hb1

/-! ### Reaching the staging-subtree phase -/

theorem writable_target_of_template {cfg : Cfg} {fs : Entry}
    {tch : List (String × Entry)}
    (hT : lookupPath fs (templateFolder cfg) = some (.dir tch)) :
    writable fs (targetFolder cfg) = true := by
  have hT' : lookupPath fs (cfg.root ++ ["extras", "package-template"]) =
      some (.dir tch) := hT
  obtain ⟨rch, hroot⟩ := lookup_dir_of_lookup_append hT' (by simp)
  exact writable_append_of_dir fs cfg.root rch "dynamo-package" hroot

theorem main_reaches_build {cfg : Cfg} {o : Oracle} {p config dv iv : String}
    {fs0 : Entry} {tch : List (String × Entry)}
    (hrm : o.stagingRm = RmO.ok) (hcp : o.stagingCp = CpO.ok)
    (hT : lookupPath fs0 (templateFolder cfg) = some (.dir tch))
    (hS : (lookupPath fs0 (sourceBinariesFolder cfg config dv)).isSome = true) :
    prepareDynamoPackage.main cfg o [p, config, dv, iv] fs0 =
      afterCopy cfg o config dv iv (resetStagingFs cfg o fs0)
        (resetStagingLog cfg o fs0) tch := by
  have hT1 : lookupPath (resetStagingFs cfg o fs0) (templateFolder cfg) =
      some (.dir tch) := by
    rw [resetStagingFs_frame (incomp_target_template cfg)]
    exact hT
  have hS1 : (lookupPath (resetStagingFs cfg o fs0)
      (sourceBinariesFolder cfg config dv)).isSome = true := by
    rw [resetStagingFs_frame (incomp_target_source cfg config dv)]
    exact hS
  have hstg : lookupPath (resetStagingFs cfg o fs0) (targetFolder cfg) = none :=
    resetStagingFs_self_ok hrm
  have hw : writable (resetStagingFs cfg o fs0) (targetFolder cfg) = true :=
    writable_target_of_template hT1
  obtain ⟨fs2, hins⟩ := insertPath_ok_of_writable _ (targetFolder cfg)
    (.dir tch) hw
  simp [prepareDynamoPackage.main, pathExists, hT1, hS1, hstg, hins, hrm, hcp]

/-- C4 is false as stated: when the staged manifest is absent, the deployer
prints a fixed message and returns normally, so the process exit status is 0,
not non-zero.  At this concrete input the template (hence the staging
directory after the copy) has no `pkg.json`, yet the run exits with status
0. -/
theorem C4_counterexample :
    lookupPath (prepareDynamoPackage.main c4cfg Oracle.allOk
        ["w", "cfg", "1.0", "4.1"] c4fs).fs
      (targetFolder c4cfg ++ ["pkg.json"]) = none ∧
    msgNoPkgJson ∈ (prepareDynamoPackage.main c4cfg Oracle.allOk
        ["w", "cfg", "1.0", "4.1"] c4fs).log ∧
    (prepareDynamoPackage.main c4cfg Oracle.allOk
        ["w", "cfg", "1.0", "4.1"] c4fs).exitCode = 0 :=
  ⟨rfl, by decide, rfl⟩

/-- C4 amended: when, after the template is copied into the staging directory,
the manifest `pkg.json` is absent there, the deployer reports the condition
with a fixed message (which does not include the expected paths), aborts
before mutating any destination install directory, and returns normally with
exit status zero. -/
theorem C4_missing_manifest_aborts_quietly (cfg : Cfg) (o : Oracle)
    (p config dv iv : String) (fs0 : Entry) (tch : List (String × Entry))
    (hrm : o.stagingRm = RmO.ok) (hcp : o.stagingCp = CpO.ok)
    (hT : lookupPath fs0 (templateFolder cfg) = some (.dir tch))
    (hS : (lookupPath fs0 (sourceBinariesFolder cfg config dv)).isSome = true)
    (hb : isFileO (lookupChild tch "bin") = false)
    (hd : isFileO (lookupChild tch "dyf") = false)
    (he : isFileO (lookupChild tch "extra") = false)
    (hpkg : lookupChild tch "pkg.json" = none)
    (hcI : PathIncomp (targetFolder cfg) (packageTargetFolder cfg iv))
    (hrI : PathIncomp (targetFolder cfg) (packageTargetFolderRevit cfg iv)) :
    (prepareDynamoPackage.main cfg o [p, config, dv, iv] fs0).exitCode = 0 ∧
    msgNoPkgJson ∈ (prepareDynamoPackage.main cfg o [p, config, dv, iv] fs0).log ∧
    lookupPath (prepareDynamoPackage.main cfg o [p, config, dv, iv] fs0).fs
        (packageTargetFolder cfg iv) =
      lookupPath fs0 (packageTargetFolder cfg iv) ∧
    lookupPath (prepareDynamoPackage.main cfg o [p, config, dv, iv] fs0).fs
        (packageTargetFolderRevit cfg iv) =
      lookupPath fs0 (packageTargetFolderRevit cfg iv) := by
  rw [main_reaches_build hrm hcp hT hS]
  obtain ⟨ch2, hED, hpkg2, _⟩ := ensureDirs_ok hb hd he
  rw [hpkg] at hpkg2
  have hres : afterCopy cfg o config dv iv (resetStagingFs cfg o fs0)
      (resetStagingLog cfg o fs0) tch =
      ⟨setPathD (resetStagingFs cfg o fs0) (targetFolder cfg) (.dir ch2),
       resetStagingLog cfg o fs0 ++ [msgNoPkgJson], 0⟩ := by
    simp [afterCopy, hED, hpkg2]
  rw [hres]
  refine ⟨rfl, by simp, ?_, ?_⟩
  · rw [lookupPath_setPathD_frame hcI.1 hcI.2, resetStagingFs_frame hcI]
  · rw [lookupPath_setPathD_frame hrI.1 hrI.2, resetStagingFs_frame hrI]

/-- Witness for the amended C4 at a concrete template with no manifest. -/
theorem C4_missing_manifest_aborts_quietly_witness :
    Oracle.allOk.stagingRm = RmO.ok ∧ Oracle.allOk.stagingCp = CpO.ok ∧
    lookupPath c4fs (templateFolder c4cfg) = some (.dir []) ∧
    (lookupPath c4fs (sourceBinariesFolder c4cfg "cfg" "1.0")).isSome = true ∧
    ((prepareDynamoPackage.main c4cfg Oracle.allOk ["w", "cfg", "1.0", "4.1"] c4fs).exitCode = 0 ∧
     msgNoPkgJson ∈ (prepareDynamoPackage.main c4cfg Oracle.allOk
        ["w", "cfg", "1.0", "4.1"] c4fs).log ∧
     lookupPath (prepareDynamoPackage.main c4cfg Oracle.allOk
          ["w", "cfg", "1.0", "4.1"] c4fs).fs (packageTargetFolder c4cfg "4.1") =
       lookupPath c4fs (packageTargetFolder c4cfg "4.1") ∧
     lookupPath (prepareDynamoPackage.main c4cfg Oracle.allOk
          ["w", "cfg", "1.0", "4.1"] c4fs).fs (packageTargetFolderRevit c4cfg "4.1") =
       lookupPath c4fs (packageTargetFolderRevit c4cfg "4.1")) :=
  ⟨rfl, rfl, rfl, rfl,
   C4_missing_manifest_aborts_quietly c4cfg Oracle.allOk "w" "cfg" "1.0" "4.1"
     c4fs [] rfl rfl rfl rfl rfl rfl rfl rfl (by decide) (by decide)⟩

theorem populateStep_file_ok {bch : List (String × Entry)} {n : String}
    {c : String} {mt : Nat} (h : isDirO (lookupChild bch n) = false) :
    populateStep bch n (.file c mt) = .ok (setChild bch n (.file c mt)) := by
  unfold populateStep
  cases hc : lookupChild bch n with
  | none => rfl
  | some e0 =>
    cases e0 with
    | file c0 m0 => rfl
    | dir d => simp [isDirO, hc] at h

theorem populateStep_dir_ok {bch : List (String × Entry)} {n : String}
    {d : List (String × Entry)} (h : isFileO (lookupChild bch n) = false) :
    populateStep bch n (.dir d) = .ok (eraseChild bch n ++ [(n, .dir d)]) := by
  unfold populateStep
  cases hc : lookupChild bch n with
  | none => simp [eraseChild_of_lookup_none hc]
  | some e0 =>
    cases e0 with
    | file c0 m0 => simp [isFileO, hc] at h
    | dir d0 => rfl

theorem populateStep_ok_of_compat {bch : List (String × Entry)} {n : String}
    {e : Entry} {rest : List (String × Entry)}
    (h : compatB bch ((n, e) :: rest) = true) :
    ∃ b0, populateStep bch n e = .ok b0 ∧ lookupChild b0 n = some e ∧
      (∀ m, m ≠ n → lookupChild b0 m = lookupChild bch m) := by
  cases e with
  | file c mt =>
    simp only [compatB, Bool.and_eq_true, Bool.not_eq_true'] at h
    refine ⟨_, populateStep_file_ok h.1, lookupChild_setChild_self _ _ _, ?_⟩
    intro m hm
    exact lookupChild_setChild_ne _ _ hm
  | dir d =>
    simp only [compatB, Bool.and_eq_true, Bool.not_eq_true'] at h
    refine ⟨_, populateStep_dir_ok h.1, ?_, ?_⟩
    · simp [lookupChild_append, lookupChild_eraseChild_self, lookupChild]
    · intro m hm
      rw [lookupChild_append]
      cases hcm : lookupChild (eraseChild bch n) m with
      | some x =>
        rw [lookupChild_eraseChild_ne _ hm] at hcm
        simp [hcm]
      | none =>
        rw [lookupChild_eraseChild_ne _ hm] at hcm
        simp [hcm, lookupChild, Ne.symm hm]

theorem compatB_congr : ∀ {rest b0 bch : List (String × Entry)},
    (∀ m ∈ rest.map Prod.fst, lookupChild b0 m = lookupChild bch m) →
    compatB b0 rest = compatB bch rest
  | [], _, _, _ => rfl
  | (n, e) :: rest, b0, bch, h => by
    have hn : lookupChild b0 n = lookupChild bch n := by
      refine h n ?_
      simp
    have hrest : compatB b0 rest = compatB bch rest := by
      refine compatB_congr ?_
      intro m hm
      refine h m ?_
      simp only [List.map_cons, List.mem_cons]
      exact Or.inr hm
    cases e with
    | file c mt => simp only [compatB, hn, hrest]
    | dir d => simp only [compatB, hn, hrest]

theorem populateBin_ok : ∀ (sch : List (String × Entry))
    (bch : List (String × Entry)), (sch.map Prod.fst).Nodup →
    compatB bch sch = true →
    ∃ b, populateBin bch sch = .ok b ∧
      (∀ pr ∈ sch, lookupChild b pr.1 = some pr.2) ∧
      (∀ m, m ∉ sch.map Prod.fst → lookupChild b m = lookupChild bch m)
  | [], bch, _, _ => ⟨bch, rfl, by simp, fun m _ => rfl⟩
  | (n, e) :: rest, bch, hnd, hcompat => by
    obtain ⟨b0, hs, hself, hother⟩ := populateStep_ok_of_compat hcompat
    have hnd' : n ∉ rest.map Prod.fst ∧ (rest.map Prod.fst).Nodup := by
      rw [List.map_cons, List.nodup_cons] at hnd
      exact hnd
    have hcrest : compatB bch rest = true := by
      cases e with
      | file c mt =>
        simp only [compatB, Bool.and_eq_true] at hcompat
        exact hcompat.2
      | dir d =>
        simp only [compatB, Bool.and_eq_true] at hcompat
        exact hcompat.2
    have hcompat0 : compatB b0 rest = true := by
      rw [compatB_congr (fun m hm => hother m (fun hmn => hnd'.1 (hmn ▸ hm)))]
      exact hcrest
    obtain ⟨b, hb, hmem, hpres⟩ := populateBin_ok rest b0 hnd'.2 hcompat0
    refine ⟨b, ?_, ?_, ?_⟩
    · simp [populateBin, hs, hb]
    · intro pr hpr
      rcases List.mem_cons.mp hpr with rfl | htail
      · rw [hpres n hnd'.1]
        exact hself
      · exact hmem pr htail
    · intro m hm
      simp only [List.map_cons, List.mem_cons, not_or] at hm
      rw [hpres m hm.2]
      exact hother m hm.1

/-! ### Destination-block lemmas -/

theorem pathIncomp_symm {p q : List String} (h : PathIncomp p q) :
    PathIncomp q p :=
  ⟨h.2, h.1⟩

theorem pathIncomp_append_left {a b : List String} (h : PathIncomp a b)
    (r : List String) : PathIncomp (a ++ r) b := by
  constructor
  · intro hc
    exact h.1 ((List.prefix_append a r).trans hc)
  · intro hc
    rcases Nat.le_total b.length a.length with hl | hl
    · exact h.2 (List.prefix_of_prefix_length_le hc (List.prefix_append a r) hl)
    · exact h.1 (List.prefix_of_prefix_length_le (List.prefix_append a r) hc hl)

theorem lookupPath_snoc_child {fs : Entry} {p : List String}
    {X : List (String × Entry)} {n : String}
    (h : lookupPath fs p = some (.dir X)) :
    lookupPath fs (p ++ [n]) = lookupChild X n := by
  rw [lookupPath_append, h, Option.some_bind]
  cases hc : lookupChild X n with
  | none => simp [lookupPath, hc]
  | some e => simp [lookupPath, hc]

theorem rmPhase_frame {fs : Entry} {dstP q : List String} {rmO : RmO}
    (hq : PathIncomp dstP q) :
    lookupPath (rmPhase fs dstP rmO) q = lookupPath fs q := by
  unfold rmPhase
  split
  · cases rmO with
    | ok => exact lookupPath_erasePath_frame _ _ _ hq.1 hq.2
    | fail r => exact lookupPath_setPathD_frame hq.1 hq.2
  · rfl

theorem rmPhase_writable {fs : Entry} {dstP q : List String} {rmO : RmO}
    (hd : ¬ dstP <+: q) (hw : writable fs q = true) :
    writable (rmPhase fs dstP rmO) q = true := by
  unfold rmPhase
  split
  · cases rmO with
    | ok => exact writable_erasePath _ _ _ hw
    | fail r => exact writable_setPathD hd hw
  · exact hw

theorem tryCopyTree_frame {fs : Entry} {stgP dstP q : List String} {cpO : CpO}
    (hq : PathIncomp dstP q) :
    lookupPath (tryCopyTree fs stgP dstP cpO).1 q = lookupPath fs q := by
  unfold tryCopyTree
  split
  · split
    · rfl
    · split
      · rfl
      · rename_i fs2 hins
        split
        · exact lookupPath_insertPath_frame _ _ _ _ _ hins hq.1 hq.2
        · rfl
        · exact lookupPath_setPathD_frame hq.1 hq.2
  · rfl

theorem tryCopyTree_writable {fs : Entry} {stgP dstP q : List String}
    {cpO : CpO} (hd : ¬ dstP <+: q) (hw : writable fs q = true) :
    writable (tryCopyTree fs stgP dstP cpO).1 q = true := by
  unfold tryCopyTree
  split
  · split
    · exact hw
    · split
      · exact hw
      · rename_i fs2 hins
        split
        · exact writable_insertPath _ _ _ _ _ hins hd hw
        · exact hw
        · exact writable_setPathD hd hw
  · exact hw

theorem destBlock_frame {fs : Entry} {log : List String}
    {stgP dstP q : List String} {rmO : RmO} {cpO : CpO}
    {e k : List String} (hq : PathIncomp dstP q) :
    lookupPath (destBlock fs log stgP dstP rmO cpO e k).1 q =
      lookupPath fs q := by
  unfold destBlock
  rw [tryCopyTree_frame hq, rmPhase_frame hq]

theorem destBlock_writable {fs : Entry} {log : List String}
    {stgP dstP q : List String} {rmO : RmO} {cpO : CpO}
    {e k : List String} (hd : ¬ dstP <+: q) (hw : writable fs q = true) :
    writable (destBlock fs log stgP dstP rmO cpO e k).1 q = true := by
  unfold destBlock
  exact tryCopyTree_writable hd (rmPhase_writable hd hw)

theorem destBlock_log_mono {fs : Entry} {log : List String}
    {stgP dstP : List String} {rmO : RmO} {cpO : CpO}
    {e k : List String} {x : String} (hx : x ∈ log) :
    x ∈ (destBlock fs log stgP dstP rmO cpO e k).2 := by
  unfold destBlock
  simp only [List.mem_append]
  exact Or.inl hx

theorem rmPhase_ok_clears {fs : Entry} {dstP : List String} (hd : dstP ≠ []) :
    lookupPath (rmPhase fs dstP RmO.ok) dstP = none := by
  unfold rmPhase
  split
  · exact lookupPath_erasePath_self _ _ hd
  · rename_i hne
    cases hl : lookupPath fs dstP with
    | none => rfl
    | some e =>
      exact absurd (show pathExists fs dstP = true by simp [pathExists, hl]) hne

theorem rmPhase_ok_writable {fs : Entry} {dstP q : List String}
    (hw : writable fs q = true) :
    writable (rmPhase fs dstP RmO.ok) q = true := by
  unfold rmPhase
  split
  · exact writable_erasePath _ _ _ hw
  · exact hw

theorem tryCopyTree_ok {fs : Entry} {stgP dstP : List String}
    {tc : List (String × Entry)}
    (hstg : lookupPath fs stgP = some (.dir tc))
    (hdst : lookupPath fs dstP = none)
    (hw : writable fs dstP = true) :
    ∃ fs2, tryCopyTree fs stgP dstP CpO.ok = (fs2, true) ∧
      insertPath fs dstP (.dir tc) = .ok fs2 := by
  obtain ⟨fs2, hins⟩ := insertPath_ok_of_writable fs dstP (.dir tc) hw
  refine ⟨fs2, ?_, hins⟩
  unfold tryCopyTree
  rw [hstg]
  simp [pathExists, hdst, hins]

theorem destBlock_ok {fs : Entry} {log : List String} {stgP dstP : List String}
    {tc : List (String × Entry)} {e k : List String}
    (hstg : lookupPath fs stgP = some (.dir tc))
    (hI : PathIncomp stgP dstP)
    (hw : writable fs dstP = true) (hd : dstP ≠ []) :
    ∃ fsOut, destBlock fs log stgP dstP RmO.ok CpO.ok e k =
        (fsOut, log ++ k) ∧
      lookupPath fsOut dstP = some (.dir tc) ∧
      lookupPath fsOut stgP = some (.dir tc) ∧
      (∀ q, PathIncomp dstP q → lookupPath fsOut q = lookupPath fs q) ∧
      (∀ q, ¬ dstP <+: q → writable fs q = true → writable fsOut q = true) := by
  have hrm : lookupPath (rmPhase fs dstP RmO.ok) dstP = none :=
    rmPhase_ok_clears hd
  have hstg1 : lookupPath (rmPhase fs dstP RmO.ok) stgP = some (.dir tc) := by
    rw [rmPhase_frame (pathIncomp_symm hI)]
    exact hstg
  have hw1 : writable (rmPhase fs dstP RmO.ok) dstP = true :=
    rmPhase_ok_writable hw
  obtain ⟨fs2, htc, hins⟩ := tryCopyTree_ok hstg1 hrm hw1
  refine ⟨fs2, ?_, ?_, ?_, ?_, ?_⟩
  · unfold destBlock
    simp [htc]
  · exact lookupPath_insertPath_self _ _ _ _ hins
  · rw [lookupPath_insertPath_frame _ _ _ _ _ hins hI.2 hI.1]
    exact hstg1
  · intro q hq
    rw [lookupPath_insertPath_frame _ _ _ _ _ hins hq.1 hq.2]
    exact rmPhase_frame hq
  · intro q hq hwq
    exact writable_insertPath _ _ _ _ _ hins hq (rmPhase_ok_writable hwq)

theorem destBlock_rm_fail {fs : Entry} {log : List String}
    {stgP dstP : List String} {tc : List (String × Entry)} {r : Entry}
    {cpO : CpO} {e k : List String}
    (hstg : lookupPath fs stgP = some (.dir tc))
    (hI : PathIncomp stgP dstP)
    (hex : (lookupPath fs dstP).isSome = true) :
    destBlock fs log stgP dstP (RmO.fail r) cpO e k =
      (setPathD fs dstP r, log ++ e) ∧
    lookupPath (setPathD fs dstP r) dstP = some r := by
  have hwd : writable fs dstP = true := writable_of_lookup_isSome _ _ hex
  have hself : lookupPath (setPathD fs dstP r) dstP = some r :=
    lookupPath_setPathD_self hwd
  have h1 : pathExists fs dstP = true := by simpa [pathExists] using hex
  have hstg1 : lookupPath (setPathD fs dstP r) stgP = some (.dir tc) := by
    rw [lookupPath_setPathD_frame hI.2 hI.1]
    exact hstg
  have h2 : pathExists (setPathD fs dstP r) dstP = true := by
    simp [pathExists, hself]
  refine ⟨?_, hself⟩
  unfold destBlock rmPhase tryCopyTree
  simp [h1, hstg1, h2]

theorem destBlock_cp_fail {fs : Entry} {log : List String}
    {stgP dstP : List String} {tc : List (String × Entry)} {rc : Option Entry}
    {e k : List String}
    (hstg : lookupPath fs stgP = some (.dir tc))
    (hI : PathIncomp stgP dstP) (hd : dstP ≠ []) :
    ∃ fsOut, destBlock fs log stgP dstP RmO.ok (CpO.fail rc) e k =
        (fsOut, log ++ e) ∧
      lookupPath fsOut stgP = some (.dir tc) ∧
      (∀ q, PathIncomp dstP q → lookupPath fsOut q = lookupPath fs q) ∧
      (∀ q, ¬ dstP <+: q → writable fs q = true → writable fsOut q = true) := by
  have hrm : lookupPath (rmPhase fs dstP RmO.ok) dstP = none :=
    rmPhase_ok_clears hd
  have hstg1 : lookupPath (rmPhase fs dstP RmO.ok) stgP = some (.dir tc) := by
    rw [rmPhase_frame (pathIncomp_symm hI)]
    exact hstg
  cases hins : insertPath (rmPhase fs dstP RmO.ok) dstP (.dir tc) with
  | error u =>
    refine ⟨rmPhase fs dstP RmO.ok, ?_, hstg1, ?_, ?_⟩
    · unfold destBlock tryCopyTree
      simp [hstg1, pathExists, hrm, hins]
    · intro q hq
      exact rmPhase_frame hq
    · intro q hq hwq
      exact rmPhase_ok_writable hwq
  | ok fs2 =>
    cases rc with
    | none =>
      refine ⟨rmPhase fs dstP RmO.ok, ?_, hstg1, ?_, ?_⟩
      · unfold destBlock tryCopyTree
        simp [hstg1, pathExists, hrm, hins]
      · intro q hq
        exact rmPhase_frame hq
      · intro q hq hwq
        exact rmPhase_ok_writable hwq
    | some t =>
      refine ⟨setPathD (rmPhase fs dstP RmO.ok) dstP t, ?_, ?_, ?_, ?_⟩
      · unfold destBlock tryCopyTree
        simp [hstg1, pathExists, hrm, hins]
      · rw [lookupPath_setPathD_frame hI.2 hI.1]
        exact hstg1
      · intro q hq
        rw [lookupPath_setPathD_frame hq.1 hq.2]
        exact rmPhase_frame hq
      · intro q hq hwq
        exact writable_setPathD hq (rmPhase_ok_writable hwq)

theorem resetStagingFs_writable {cfg : Cfg} {o : Oracle} {fs0 : Entry}
    {q : List String} (hq : ¬ targetFolder cfg <+: q)
    (hw : writable fs0 q = true) :
    writable (resetStagingFs cfg o fs0) q = true := by
  unfold resetStagingFs
  split
  · cases o.stagingRm with
    | ok => exact writable_erasePath _ _ _ hw
    | fail r => exact writable_setPathD hq hw
  · exact hw

/-- On a run whose preconditions are all met and whose staging-phase oracle
reports no failures, the script reaches the destination phase with the fully
assembled staging tree written at the staging path. -/
theorem main_to_dests {cfg : Cfg} {o : Oracle} {p config dv iv : String}
    {fs0 : Entry} {tch sch : List (String × Entry)} {t : String} {mt : Nat}
    (hrm : o.stagingRm = RmO.ok) (hcp : o.stagingCp = CpO.ok)
    (hT : lookupPath fs0 (templateFolder cfg) = some (.dir tch))
    (hSrc : lookupPath fs0 (sourceBinariesFolder cfg config dv) =
      some (.dir sch))
    (hb : isFileO (lookupChild tch "bin") = false)
    (hd : isFileO (lookupChild tch "dyf") = false)
    (he : isFileO (lookupChild tch "extra") = false)
    (hpkg : lookupChild tch "pkg.json" = some (.file t mt))
    (hnd : (sch.map Prod.fst).Nodup)
    (hcompat : compatB (binBase tch) sch = true) :
    ∃ ch2 b, ensureDirs tch = .ok ch2 ∧
      populateBin (binBase tch) sch = .ok b ∧
      prepareDynamoPackage.main cfg o [p, config, dv, iv] fs0 =
        destChain cfg o iv
          (setPathD (resetStagingFs cfg o fs0) (targetFolder cfg)
            (stagedEntry ch2 b t iv))
          (resetStagingLog cfg o fs0 ++ [msgVersionSet]) ∧
      lookupPath (setPathD (resetStagingFs cfg o fs0) (targetFolder cfg)
          (stagedEntry ch2 b t iv)) (targetFolder cfg) =
        some (stagedEntry ch2 b t iv) ∧
      (∀ q, PathIncomp (targetFolder cfg) q →
        lookupPath (setPathD (resetStagingFs cfg o fs0) (targetFolder cfg)
          (stagedEntry ch2 b t iv)) q = lookupPath fs0 q) ∧
      (∀ q, ¬ targetFolder cfg <+: q → writable fs0 q = true →
        writable (setPathD (resetStagingFs cfg o fs0) (targetFolder cfg)
          (stagedEntry ch2 b t iv)) q = true) := by
  obtain ⟨ch2, hED, hpkgP, hbin2⟩ := ensureDirs_ok hb hd he
  rw [hpkg] at hpkgP
  obtain ⟨b, hPB, _, _⟩ := populateBin_ok sch (binBase tch) hnd hcompat
  have hT1 : lookupPath (resetStagingFs cfg o fs0) (templateFolder cfg) =
      some (.dir tch) := by
    rw [resetStagingFs_frame (incomp_target_template cfg)]
    exact hT
  have hSrc1 : lookupPath (resetStagingFs cfg o fs0)
      (sourceBinariesFolder cfg config dv) = some (.dir sch) := by
    rw [resetStagingFs_frame (incomp_target_source cfg config dv)]
    exact hSrc
  have hbin3 : lookupChild (setChild ch2 "pkg.json"
      (.file (processPkgJson t iv) 0)) "bin" = some (.dir (binBase tch)) := by
    rw [lookupChild_setChild_ne _ _ (by decide)]
    exact hbin2
  have hS' : (lookupPath fs0 (sourceBinariesFolder cfg config dv)).isSome =
      true := by
    simp [hSrc]
  have hmain := @main_reaches_build cfg o p config dv iv fs0 tch hrm hcp hT hS'
  have hAC : afterCopy cfg o config dv iv (resetStagingFs cfg o fs0)
      (resetStagingLog cfg o fs0) tch =
      destChain cfg o iv
        (setPathD (resetStagingFs cfg o fs0) (targetFolder cfg)
          (stagedEntry ch2 b t iv))
        (resetStagingLog cfg o fs0 ++ [msgVersionSet]) := by
    unfold afterCopy
    simp only [hED, hpkgP, hSrc1, hbin3, hPB]
  refine ⟨ch2, b, hED, hPB, ?_, ?_, ?_, ?_⟩
  · rw [hmain, hAC]
  · exact lookupPath_setPathD_self (writable_target_of_template hT1)
  · intro q hq
    rw [lookupPath_setPathD_frame hq.1 hq.2]
    exact resetStagingFs_frame hq
  · intro q hq hw
    exact writable_setPathD hq (resetStagingFs_writable hq hw)

/-- C5: for every source binaries directory listing (with distinct names, as
`os.listdir` yields, and no file/directory kind clash against the staging bin
contents), the populate step succeeds and afterwards the staging bin folder
holds a copy of every top-level file, with content and modification time
preserved (`shutil.copy2`), and an exact full copy of every top-level
subdirectory — a same-named pre-existing subdirectory is deleted first and
fully replaced, never merged. -/
theorem C5_populate_copies_and_replaces (bch sch : List (String × Entry))
    (hnd : (sch.map Prod.fst).Nodup) (hcompat : compatB bch sch = true) :
    ∃ b, populateBin bch sch = .ok b ∧
      (∀ n c mt, (n, Entry.file c mt) ∈ sch →
        lookupChild b n = some (.file c mt)) ∧
      (∀ n d, (n, Entry.dir d) ∈ sch → lookupChild b n = some (.dir d)) := by
  obtain ⟨b, hb, hmem, _⟩ := populateBin_ok sch bch hnd hcompat
  exact ⟨b, hb, fun n c mt h => hmem _ h, fun n d h => hmem _ h⟩

/-- Witness for C5 at a bin folder with a same-named stale subdirectory. -/
theorem C5_populate_copies_and_replaces_witness :
    (c5sch.map Prod.fst).Nodup ∧ compatB c5bch c5sch = true ∧
    (∃ b, populateBin c5bch c5sch = .ok b ∧
      (∀ n c mt, (n, Entry.file c mt) ∈ c5sch →
        lookupChild b n = some (.file c mt)) ∧
      (∀ n d, (n, Entry.dir d) ∈ c5sch → lookupChild b n = some (.dir d))) :=
  ⟨by decide, rfl, C5_populate_copies_and_replaces c5bch c5sch (by decide) rfl⟩

/-! ### Placeholder substitution facts -/

theorem processPkgJson_props {t iv : String}
    (h1 : containsStr t versionToken)
    (h2 : containsStr (strReplace t versionToken packageVersion)
      dynamoVersionToken)
    (h3 : iv ≠ "")
    (h4 : ∀ c ∈ iv.data, c ∉ dynamoVersionToken.data) :
    containsStr (processPkgJson t iv) packageVersion ∧
    containsStr (processPkgJson t iv) iv ∧
    ¬ containsStr (processPkgJson t iv) versionToken ∧
    ¬ containsStr (processPkgJson t iv) dynamoVersionToken := by
  have hVne : versionToken.data ≠ [] := by decide
  have hDne : dynamoVersionToken.data ≠ [] := by decide
  have hPne : packageVersion.data ≠ [] := by decide
  have hIne : iv.data ≠ [] := by
    intro hc
    exact h3 (String.ext (hc.trans rfl))
  have h1' : versionToken.data <:+: t.data := h1
  have h2' : dynamoVersionToken.data <:+:
      replaceAll t.data versionToken.data packageVersion.data := h2
  have hPD : ∀ c ∈ packageVersion.data, c ∉ dynamoVersionToken.data := by decide
  have hVP : ∀ c ∈ versionToken.data, c ∉ packageVersion.data := by decide
  have hVsubD : ∀ c ∈ versionToken.data, c ∈ dynamoVersionToken.data := by decide
  have hDI : ∀ c ∈ dynamoVersionToken.data, c ∉ iv.data :=
    fun c hcD hcI => h4 c hcI hcD
  have hVI : ∀ c ∈ versionToken.data, c ∉ iv.data :=
    fun c hc hci => h4 c hci (hVsubD c hc)
  refine ⟨?_, ?_, ?_, ?_⟩
  · show packageVersion.data <:+:
      replaceAllAux dynamoVersionToken.data iv.data _ _
    refine infix_replaceAllAux_of_disj _ _ _ le_rfl hPD ?_
    exact infix_replaceAllAux_of_infix hVne _ _ le_rfl h1'
  · show iv.data <:+: replaceAllAux dynamoVersionToken.data iv.data _ _
    exact infix_replaceAllAux_of_infix hDne _ _ le_rfl h2'
  · intro hcon
    have hback : versionToken.data <:+:
        replaceAll t.data versionToken.data packageVersion.data :=
      infix_of_infix_replaceAllAux hIne _ _ _ le_rfl hVI hcon
    exact not_infix_replaceAllAux hVne hPne hVP _ _ le_rfl hback
  · intro hcon
    exact not_infix_replaceAllAux hDne hIne hDI _ _ le_rfl hcon

theorem packageTargetFolder_ne_nil (cfg : Cfg) (iv : String) :
    packageTargetFolder cfg iv ≠ [] := by
  simp [packageTargetFolder]

theorem packageTargetFolderRevit_ne_nil (cfg : Cfg) (iv : String) :
    packageTargetFolderRevit cfg iv ≠ [] := by
  simp [packageTargetFolderRevit]

/-- When neither destination suffers an environmental failure, the
destination chain installs the staging tree at both destinations and exits
normally, logging a completion line per destination. -/
theorem destChain_all_ok {cfg : Cfg} {o : Oracle} {iv : String} {fs3 : Entry}
    {log2 : List String} {S : List (String × Entry)}
    (hcr : o.coreRm = RmO.ok) (hcc : o.coreCp = CpO.ok)
    (hrr : o.revitRm = RmO.ok) (hrc : o.revitCp = CpO.ok)
    (hstg : lookupPath fs3 (targetFolder cfg) = some (.dir S))
    (hcI : PathIncomp (targetFolder cfg) (packageTargetFolder cfg iv))
    (hrI : PathIncomp (targetFolder cfg) (packageTargetFolderRevit cfg iv))
    (hwc : writable fs3 (packageTargetFolder cfg iv) = true)
    (hwr : writable fs3 (packageTargetFolderRevit cfg iv) = true) :
    ∃ fs5, destChain cfg o iv fs3 log2 =
        ⟨fs5, (log2 ++ okLines (packageTargetFolder cfg iv)) ++
          okLines (packageTargetFolderRevit cfg iv), 0⟩ ∧
      lookupPath fs5 (targetFolder cfg) = some (.dir S) ∧
      lookupPath fs5 (packageTargetFolder cfg iv) = some (.dir S) ∧
      lookupPath fs5 (packageTargetFolderRevit cfg iv) = some (.dir S) ∧
      (∀ q, PathIncomp (packageTargetFolder cfg iv) q →
        PathIncomp (packageTargetFolderRevit cfg iv) q →
        lookupPath fs5 q = lookupPath fs3 q) := by
  have hcrv := incomp_core_revit cfg iv
  obtain ⟨fs4, hEq4, hcore4, hstg4, hframe4, hw4⟩ :=
    destBlock_ok hstg hcI hwc (packageTargetFolder_ne_nil cfg iv)
  have hwr4 : writable fs4 (packageTargetFolderRevit cfg iv) = true :=
    hw4 _ hcrv.1 hwr
  obtain ⟨fs5, hEq5, hrevit5, hstg5, hframe5, hw5⟩ :=
    destBlock_ok hstg4 hrI hwr4 (packageTargetFolderRevit_ne_nil cfg iv)
  refine ⟨fs5, ?_, hstg5, ?_, hrevit5, ?_⟩
  · unfold destChain
    simp only [hcr, hcc, hrr, hrc]
    rw [hEq4, hEq5]
  · rw [hframe5 _ (pathIncomp_symm hcrv)]
    exact hcore4
  · intro q h1 h2
    rw [hframe5 q h2]
    exact hframe4 q h1

theorem destChain_frame {cfg : Cfg} {o : Oracle} {iv : String} {fs3 : Entry}
    {log2 : List String} {q : List String}
    (h1 : PathIncomp (packageTargetFolder cfg iv) q)
    (h2 : PathIncomp (packageTargetFolderRevit cfg iv) q) :
    lookupPath (destChain cfg o iv fs3 log2).fs q = lookupPath fs3 q := by
  simp only [destChain]
  rw [destBlock_frame h2, destBlock_frame h1]

/-- Whatever happens after the manifest rewrite — population errors, crashes
on a malformed bin entry, or the full destination chain — the staging
manifest keeps the rewritten text. -/
theorem main_manifest {cfg : Cfg} {o : Oracle} {p config dv iv : String}
    {fs0 : Entry} {tch : List (String × Entry)} {t : String} {mt : Nat}
    (hrm : o.stagingRm = RmO.ok) (hcp : o.stagingCp = CpO.ok)
    (hT : lookupPath fs0 (templateFolder cfg) = some (.dir tch))
    (hS : (lookupPath fs0 (sourceBinariesFolder cfg config dv)).isSome = true)
    (hb : isFileO (lookupChild tch "bin") = false)
    (hd : isFileO (lookupChild tch "dyf") = false)
    (he : isFileO (lookupChild tch "extra") = false)
    (hpkg : lookupChild tch "pkg.json" = some (.file t mt))
    (hcI : PathIncomp (targetFolder cfg) (packageTargetFolder cfg iv))
    (hrI : PathIncomp (targetFolder cfg) (packageTargetFolderRevit cfg iv)) :
    lookupPath (prepareDynamoPackage.main cfg o [p, config, dv, iv] fs0).fs
      (targetFolder cfg ++ ["pkg.json"]) =
      some (.file (processPkgJson t iv) 0) := by
  have hT1 : lookupPath (resetStagingFs cfg o fs0) (templateFolder cfg) =
      some (.dir tch) := by
    rw [resetStagingFs_frame (incomp_target_template cfg)]
    exact hT
  have hwstg : writable (resetStagingFs cfg o fs0) (targetFolder cfg) = true :=
    writable_target_of_template hT1
  obtain ⟨ch2, hED, hpkgP, hbin2⟩ := ensureDirs_ok hb hd he
  rw [hpkg] at hpkgP
  have hself : ∀ X : List (String × Entry),
      lookupPath (setPathD (resetStagingFs cfg o fs0) (targetFolder cfg)
        (.dir X)) (targetFolder cfg ++ ["pkg.json"]) = lookupChild X "pkg.json" :=
    fun X => lookupPath_snoc_child (lookupPath_setPathD_self hwstg)
  have hch3 : lookupChild (setChild ch2 "pkg.json"
      (.file (processPkgJson t iv) 0)) "pkg.json" =
      some (.file (processPkgJson t iv) 0) :=
    lookupChild_setChild_self _ _ _
  have hmain := @main_reaches_build cfg o p config dv iv fs0 tch hrm hcp hT hS
  have hq1 : PathIncomp (packageTargetFolder cfg iv)
      (targetFolder cfg ++ ["pkg.json"]) :=
    pathIncomp_symm (pathIncomp_append_left hcI ["pkg.json"])
  have hq2 : PathIncomp (packageTargetFolderRevit cfg iv)
      (targetFolder cfg ++ ["pkg.json"]) :=
    pathIncomp_symm (pathIncomp_append_left hrI ["pkg.json"])
  rw [hmain]
  unfold afterCopy
  simp only [hED, hpkgP]
  split
  · split
    · split
      · exact (hself _).trans
          ((lookupChild_setChild_ne _ _ (by decide)).trans hch3)
      · exact (destChain_frame hq1 hq2).trans ((hself _).trans
          ((lookupChild_setChild_ne _ _ (by decide)).trans hch3))
    · exact (hself _).trans hch3
  · exact (hself _).trans hch3

/-- Counterexample to C1 as stated: the substitution is a blind literal
replace, so for an initial manifest text with no occurrence of the
placeholder tokens (here the empty text) the processed staging manifest does
not contain the fixed package version literal, although both the source
binaries directory and the template directory exist and all four parameters
were supplied. -/
theorem C1_counterexample :
    pathExists c1fs (sourceBinariesFolder c1cfg "cfg" "1.0") = true ∧
    pathExists c1fs (templateFolder c1cfg) = true ∧
    lookupPath (prepareDynamoPackage.main c1cfg Oracle.allOk
        ["w", "cfg", "1.0", "4.1"] c1fs).fs
      (targetFolder c1cfg ++ ["pkg.json"]) = some (.file "" 0) ∧
    ¬ containsStr "" packageVersion :=
  ⟨rfl, rfl, rfl, by decide⟩

/-- C1, amended: when the template manifest does contain the version token,
the text after the first substitution contains the dynamo-version token, and
the supplied install version is nonempty and shares no character with the
token `$DynamoVersion$`, every four-parameter run with the template and
source binaries present leaves in the staging directory a manifest whose
text contains the fixed package version literal and the install version and
holds no occurrence of either placeholder token. -/
theorem C1_amended_manifest_substitution {cfg : Cfg} {o : Oracle}
    {p config dv iv : String} {fs0 : Entry} {tch : List (String × Entry)}
    {t : String} {mt : Nat}
    (hrm : o.stagingRm = RmO.ok) (hcp : o.stagingCp = CpO.ok)
    (hT : lookupPath fs0 (templateFolder cfg) = some (.dir tch))
    (hS : (lookupPath fs0 (sourceBinariesFolder cfg config dv)).isSome = true)
    (hb : isFileO (lookupChild tch "bin") = false)
    (hd : isFileO (lookupChild tch "dyf") = false)
    (he : isFileO (lookupChild tch "extra") = false)
    (hpkg : lookupChild tch "pkg.json" = some (.file t mt))
    (hcI : PathIncomp (targetFolder cfg) (packageTargetFolder cfg iv))
    (hrI : PathIncomp (targetFolder cfg) (packageTargetFolderRevit cfg iv))
    (h1 : containsStr t versionToken)
    (h2 : containsStr (strReplace t versionToken packageVersion)
      dynamoVersionToken)
    (h3 : iv ≠ "")
    (h4 : ∀ c ∈ iv.data, c ∉ dynamoVersionToken.data) :
    lookupPath (prepareDynamoPackage.main cfg o [p, config, dv, iv] fs0).fs
        (targetFolder cfg ++ ["pkg.json"]) =
      some (.file (processPkgJson t iv) 0) ∧
    containsStr (processPkgJson t iv) packageVersion ∧
    containsStr (processPkgJson t iv) iv ∧
    ¬ containsStr (processPkgJson t iv) versionToken ∧
    ¬ containsStr (processPkgJson t iv) dynamoVersionToken := by
  obtain ⟨ha, hbv, hcv, hdv⟩ := processPkgJson_props h1 h2 h3 h4
  exact ⟨main_manifest hrm hcp hT hS hb hd he hpkg hcI hrI, ha, hbv, hcv, hdv⟩

/-- Witness for the amended C1 at a concrete template manifest holding one
occurrence of each token. -/
theorem C1_amended_manifest_substitution_witness :
    containsStr "v $Version$ d $DynamoVersion$" versionToken ∧
    ("2.19" : String) ≠ "" ∧
    (lookupPath (prepareDynamoPackage.main c1cfg Oracle.allOk
          ["w", "cfg", "1.0", "2.19"] c1wfs).fs
        (targetFolder c1cfg ++ ["pkg.json"]) =
      some (.file (processPkgJson "v $Version$ d $DynamoVersion$" "2.19") 0) ∧
    containsStr (processPkgJson "v $Version$ d $DynamoVersion$" "2.19")
      packageVersion ∧
    containsStr (processPkgJson "v $Version$ d $DynamoVersion$" "2.19")
      "2.19" ∧
    ¬ containsStr (processPkgJson "v $Version$ d $DynamoVersion$" "2.19")
      versionToken ∧
    ¬ containsStr (processPkgJson "v $Version$ d $DynamoVersion$" "2.19")
      dynamoVersionToken) :=
  ⟨by decide, by decide,
   C1_amended_manifest_substitution rfl rfl rfl rfl rfl rfl rfl rfl
     (by decide) (by decide) (by decide) (by decide) (by decide) (by decide)⟩

/-- C6: when the copy into the Dynamo Core destination fails, the error is
logged for that destination and the run continues: the Dynamo Revit
destination is still cleared and populated with the staging tree (its
rewritten manifest included), a completion line is logged for it, and the
whole run still exits normally. -/
theorem C6_replication_failure_is_local {cfg : Cfg} {o : Oracle}
    {p config dv iv : String} {fs0 : Entry} {tch sch : List (String × Entry)}
    {t : String} {mt : Nat} {rc : Option Entry}
    (hrm : o.stagingRm = RmO.ok) (hcp : o.stagingCp = CpO.ok)
    (hcrm : o.coreRm = RmO.ok) (hccp : o.coreCp = CpO.fail rc)
    (hrrm : o.revitRm = RmO.ok) (hrcp : o.revitCp = CpO.ok)
    (hT : lookupPath fs0 (templateFolder cfg) = some (.dir tch))
    (hSrc : lookupPath fs0 (sourceBinariesFolder cfg config dv) =
      some (.dir sch))
    (hb : isFileO (lookupChild tch "bin") = false)
    (hd : isFileO (lookupChild tch "dyf") = false)
    (he : isFileO (lookupChild tch "extra") = false)
    (hpkg : lookupChild tch "pkg.json" = some (.file t mt))
    (hnd : (sch.map Prod.fst).Nodup)
    (hcompat : compatB (binBase tch) sch = true)
    (hcI : PathIncomp (targetFolder cfg) (packageTargetFolder cfg iv))
    (hrI : PathIncomp (targetFolder cfg) (packageTargetFolderRevit cfg iv))
    (hwr : writable fs0 (packageTargetFolderRevit cfg iv) = true) :
    ∃ S, (prepareDynamoPackage.main cfg o [p, config, dv, iv] fs0).exitCode
        = 0 ∧
      ("Error copying to " ++ pathStr (packageTargetFolder cfg iv)) ∈
        (prepareDynamoPackage.main cfg o [p, config, dv, iv] fs0).log ∧
      ("Dynamo package complete  " ++
          pathStr (packageTargetFolderRevit cfg iv)) ∈
        (prepareDynamoPackage.main cfg o [p, config, dv, iv] fs0).log ∧
      lookupPath (prepareDynamoPackage.main cfg o [p, config, dv, iv] fs0).fs
        (targetFolder cfg) = some S ∧
      lookupPath (prepareDynamoPackage.main cfg o [p, config, dv, iv] fs0).fs
        (packageTargetFolderRevit cfg iv) = some S ∧
      lookupPath (prepareDynamoPackage.main cfg o [p, config, dv, iv] fs0).fs
        (packageTargetFolderRevit cfg iv ++ ["pkg.json"]) =
        some (.file (processPkgJson t iv) 0) := by
  obtain ⟨ch2, b, hED, hPB, hEq, hstg3, hframe3, hw3⟩ :=
    main_to_dests hrm hcp hT hSrc hb hd he hpkg hnd hcompat
  have hcrv := incomp_core_revit cfg iv
  have hstg3' : lookupPath (setPathD (resetStagingFs cfg o fs0)
      (targetFolder cfg) (stagedEntry ch2 b t iv)) (targetFolder cfg) =
      some (.dir (setChild (setChild ch2 "pkg.json"
        (.file (processPkgJson t iv) 0)) "bin" (.dir b))) := hstg3
  obtain ⟨fs4, hEq4, hstg4, hframe4, hw4⟩ :=
    destBlock_cp_fail hstg3' hcI (packageTargetFolder_ne_nil cfg iv)
  have hwr4 : writable fs4 (packageTargetFolderRevit cfg iv) = true :=
    hw4 _ hcrv.1 (hw3 _ hrI.1 hwr)
  obtain ⟨fs5, hEq5, hrevit5, hstg5, hframe5, hw5⟩ :=
    destBlock_ok hstg4 hrI hwr4 (packageTargetFolderRevit_ne_nil cfg iv)
  refine ⟨stagedEntry ch2 b t iv, ?_⟩
  rw [hEq]
  simp only [destChain, hcrm, hccp, hrrm, hrcp]
  rw [hEq4, hEq5]
  refine ⟨by trivial, ?_, ?_, hstg5, hrevit5, ?_⟩
  · exact List.mem_append.mpr (Or.inl (List.mem_append.mpr
      (Or.inr (List.mem_cons_self _ _))))
  · exact List.mem_append.mpr (Or.inr (List.mem_cons_self _ _))
  · exact (lookupPath_snoc_child hrevit5).trans
      ((lookupChild_setChild_ne _ _ (by decide)).trans
        (lookupChild_setChild_self _ _ _))

/-- Witness for C6 at a concrete run whose Dynamo Core copy fails. -/
theorem C6_replication_failure_is_local_witness :
    o6.coreCp = CpO.fail none ∧
    lookupPath c6fs (templateFolder c6cfg) =
      some (.dir [("pkg.json", .file "m $Version$ $DynamoVersion$" 7)]) ∧
    lookupPath c6fs (sourceBinariesFolder c6cfg "cfg" "1.0") =
      some (.dir [("a.dll", .file "x" 5)]) ∧
    (∃ S, (prepareDynamoPackage.main c6cfg o6 ["w", "cfg", "1.0", "4"]
        c6fs).exitCode = 0 ∧
      ("Error copying to " ++ pathStr (packageTargetFolder c6cfg "4")) ∈
        (prepareDynamoPackage.main c6cfg o6 ["w", "cfg", "1.0", "4"] c6fs).log ∧
      ("Dynamo package complete  " ++
          pathStr (packageTargetFolderRevit c6cfg "4")) ∈
        (prepareDynamoPackage.main c6cfg o6 ["w", "cfg", "1.0", "4"] c6fs).log ∧
      lookupPath (prepareDynamoPackage.main c6cfg o6 ["w", "cfg", "1.0", "4"]
        c6fs).fs (targetFolder c6cfg) = some S ∧
      lookupPath (prepareDynamoPackage.main c6cfg o6 ["w", "cfg", "1.0", "4"]
        c6fs).fs (packageTargetFolderRevit c6cfg "4") = some S ∧
      lookupPath (prepareDynamoPackage.main c6cfg o6 ["w", "cfg", "1.0", "4"]
          c6fs).fs (packageTargetFolderRevit c6cfg "4" ++ ["pkg.json"]) =
        some (.file (processPkgJson "m $Version$ $DynamoVersion$" "4") 0)) :=
  ⟨rfl, rfl, rfl,
   C6_replication_failure_is_local rfl rfl rfl rfl rfl rfl rfl rfl rfl rfl
     rfl rfl (by decide) rfl (by decide) (by decide) rfl⟩

/-- Counterexample to C10 as stated: `shutil.rmtree` can fail part-way, so
when removal of the pre-existing Dynamo Core install fails with a residual
holding only one of its two prior files, the destination still exists and
the copy is refused and logged — but the prior contents are not left
entirely unchanged: one of the two old files is gone.  The removal failure
itself is silent: its warning print is dead code, since the
error-swallowing permission-repair handler keeps `rmtree` from raising. -/
theorem C10_counterexample :
    o10.coreRm = RmO.fail (.dir [("b.dll", .file "b" 2)]) ∧
    lookupPath c10fs (packageTargetFolder c10cfg "4" ++ ["a.dll"]) =
      some (.file "a" 1) ∧
    lookupPath (prepareDynamoPackage.main c10cfg o10 ["w", "cfg", "1.0", "4"]
        c10fs).fs (packageTargetFolder c10cfg "4") =
      some (.dir [("b.dll", .file "b" 2)]) ∧
    lookupPath (prepareDynamoPackage.main c10cfg o10 ["w", "cfg", "1.0", "4"]
        c10fs).fs (packageTargetFolder c10cfg "4" ++ ["a.dll"]) = none ∧
    ("Error copying to " ++ pathStr (packageTargetFolder c10cfg "4")) ∈
      (prepareDynamoPackage.main c10cfg o10 ["w", "cfg", "1.0", "4"]
        c10fs).log ∧
    ("Warning: Could not remove existing package folder " ++
        pathStr (packageTargetFolder c10cfg "4")) ∉
      (prepareDynamoPackage.main c10cfg o10 ["w", "cfg", "1.0", "4"]
        c10fs).log :=
  ⟨rfl, rfl, rfl, rfl, by decide, by decide⟩

/-- C10, amended: when removal of a pre-existing Dynamo Core install fails,
the destination afterwards holds exactly the residual left by the failed
removal — the subsequent copy refuses the still-existing destination, no
staging content is written there, and the copy error is logged — but the
residual may lack entries the destination held before, so the prior
contents are not in general unchanged, and the removal failure itself
produces no output. -/
theorem C10_locked_destination_never_updated_in_place {cfg : Cfg}
    {o : Oracle} {p config dv iv : String} {fs0 : Entry}
    {tch sch : List (String × Entry)} {t : String} {mt : Nat} {r : Entry}
    (hrm : o.stagingRm = RmO.ok) (hcp : o.stagingCp = CpO.ok)
    (hcrm : o.coreRm = RmO.fail r)
    (hT : lookupPath fs0 (templateFolder cfg) = some (.dir tch))
    (hSrc : lookupPath fs0 (sourceBinariesFolder cfg config dv) =
      some (.dir sch))
    (hb : isFileO (lookupChild tch "bin") = false)
    (hd : isFileO (lookupChild tch "dyf") = false)
    (he : isFileO (lookupChild tch "extra") = false)
    (hpkg : lookupChild tch "pkg.json" = some (.file t mt))
    (hnd : (sch.map Prod.fst).Nodup)
    (hcompat : compatB (binBase tch) sch = true)
    (hcI : PathIncomp (targetFolder cfg) (packageTargetFolder cfg iv))
    (hex : (lookupPath fs0 (packageTargetFolder cfg iv)).isSome = true) :
    lookupPath (prepareDynamoPackage.main cfg o [p, config, dv, iv] fs0).fs
      (packageTargetFolder cfg iv) = some r ∧
    ("Error copying to " ++ pathStr (packageTargetFolder cfg iv)) ∈
      (prepareDynamoPackage.main cfg o [p, config, dv, iv] fs0).log := by
  obtain ⟨ch2, b, hED, hPB, hEq, hstg3, hframe3, hw3⟩ :=
    main_to_dests hrm hcp hT hSrc hb hd he hpkg hnd hcompat
  have hcrv := incomp_core_revit cfg iv
  have hstg3' : lookupPath (setPathD (resetStagingFs cfg o fs0)
      (targetFolder cfg) (stagedEntry ch2 b t iv)) (targetFolder cfg) =
      some (.dir (setChild (setChild ch2 "pkg.json"
        (.file (processPkgJson t iv) 0)) "bin" (.dir b))) := hstg3
  have hex3 : (lookupPath (setPathD (resetStagingFs cfg o fs0)
      (targetFolder cfg) (stagedEntry ch2 b t iv))
      (packageTargetFolder cfg iv)).isSome = true := by
    rw [hframe3 _ hcI]
    exact hex
  obtain ⟨hEq4, hres4⟩ := destBlock_rm_fail hstg3' hcI hex3
  rw [hEq]
  simp only [destChain, hcrm]
  rw [hEq4]
  refine ⟨?_, ?_⟩
  · exact (destBlock_frame (pathIncomp_symm hcrv)).trans hres4
  · exact destBlock_log_mono (List.mem_append.mpr (Or.inr
      (List.mem_cons_self _ _)))

/-- Witness for the amended C10 at the concrete locked Dynamo Core
destination. -/
theorem C10_locked_destination_never_updated_in_place_witness :
    o10.coreRm = RmO.fail (.dir [("b.dll", .file "b" 2)]) ∧
    (lookupPath c10fs (packageTargetFolder c10cfg "4")).isSome = true ∧
    (lookupPath (prepareDynamoPackage.main c10cfg o10 ["w", "cfg", "1.0", "4"]
        c10fs).fs (packageTargetFolder c10cfg "4") =
      some (.dir [("b.dll", .file "b" 2)]) ∧
    ("Error copying to " ++ pathStr (packageTargetFolder c10cfg "4")) ∈
      (prepareDynamoPackage.main c10cfg o10 ["w", "cfg", "1.0", "4"]
        c10fs).log) :=
  ⟨rfl, rfl,
   C10_locked_destination_never_updated_in_place rfl rfl rfl rfl rfl rfl rfl
     rfl rfl (by decide) rfl (by decide) rfl⟩

/-- A run with no environmental failures installs the staged tree at the
staging location and both destinations, exits normally, and touches nothing
incomparable with those three roots. -/
theorem main_allOk_success {cfg : Cfg} {p config dv iv : String}
    {fs0 : Entry} {tch sch : List (String × Entry)} {t : String} {mt : Nat}
    (hT : lookupPath fs0 (templateFolder cfg) = some (.dir tch))
    (hSrc : lookupPath fs0 (sourceBinariesFolder cfg config dv) =
      some (.dir sch))
    (hb : isFileO (lookupChild tch "bin") = false)
    (hd : isFileO (lookupChild tch "dyf") = false)
    (he : isFileO (lookupChild tch "extra") = false)
    (hpkg : lookupChild tch "pkg.json" = some (.file t mt))
    (hnd : (sch.map Prod.fst).Nodup)
    (hcompat : compatB (binBase tch) sch = true)
    (hcI : PathIncomp (targetFolder cfg) (packageTargetFolder cfg iv))
    (hrI : PathIncomp (targetFolder cfg) (packageTargetFolderRevit cfg iv))
    (hwc : writable fs0 (packageTargetFolder cfg iv) = true)
    (hwr : writable fs0 (packageTargetFolderRevit cfg iv) = true) :
    ∃ ch2 b, ensureDirs tch = .ok ch2 ∧
      populateBin (binBase tch) sch = .ok b ∧
      (prepareDynamoPackage.main cfg Oracle.allOk [p, config, dv, iv]
        fs0).exitCode = 0 ∧
      lookupPath (prepareDynamoPackage.main cfg Oracle.allOk
          [p, config, dv, iv] fs0).fs (targetFolder cfg) =
        some (stagedEntry ch2 b t iv) ∧
      lookupPath (prepareDynamoPackage.main cfg Oracle.allOk
          [p, config, dv, iv] fs0).fs (packageTargetFolder cfg iv) =
        some (stagedEntry ch2 b t iv) ∧
      lookupPath (prepareDynamoPackage.main cfg Oracle.allOk
          [p, config, dv, iv] fs0).fs (packageTargetFolderRevit cfg iv) =
        some (stagedEntry ch2 b t iv) ∧
      (∀ q, PathIncomp (targetFolder cfg) q →
        PathIncomp (packageTargetFolder cfg iv) q →
        PathIncomp (packageTargetFolderRevit cfg iv) q →
        lookupPath (prepareDynamoPackage.main cfg Oracle.allOk
          [p, config, dv, iv] fs0).fs q = lookupPath fs0 q) := by
  obtain ⟨ch2, b, hED, hPB, hEq, hstg3, hframe3, hw3⟩ :=
    main_to_dests (show Oracle.allOk.stagingRm = RmO.ok from rfl)
      (show Oracle.allOk.stagingCp = CpO.ok from rfl)
      hT hSrc hb hd he hpkg hnd hcompat
  have hstg3' : lookupPath (setPathD (resetStagingFs cfg Oracle.allOk fs0)
      (targetFolder cfg) (stagedEntry ch2 b t iv)) (targetFolder cfg) =
      some (.dir (setChild (setChild ch2 "pkg.json"
        (.file (processPkgJson t iv) 0)) "bin" (.dir b))) := hstg3
  have hwc3 : writable (setPathD (resetStagingFs cfg Oracle.allOk fs0)
      (targetFolder cfg) (stagedEntry ch2 b t iv))
      (packageTargetFolder cfg iv) = true := hw3 _ hcI.1 hwc
  have hwr3 : writable (setPathD (resetStagingFs cfg Oracle.allOk fs0)
      (targetFolder cfg) (stagedEntry ch2 b t iv))
      (packageTargetFolderRevit cfg iv) = true := hw3 _ hrI.1 hwr
  obtain ⟨fs5, hEqC, hstg5, hcore5, hrevit5, hframe5⟩ :=
    destChain_all_ok (show Oracle.allOk.coreRm = RmO.ok from rfl)
      (show Oracle.allOk.coreCp = CpO.ok from rfl)
      (show Oracle.allOk.revitRm = RmO.ok from rfl)
      (show Oracle.allOk.revitCp = CpO.ok from rfl)
      hstg3' hcI hrI hwc3 hwr3
  refine ⟨ch2, b, hED, hPB, ?_⟩
  rw [hEq, hEqC]
  exact ⟨rfl, hstg5, hcore5, hrevit5,
    fun q h1 h2 h3 => (hframe5 q h2 h3).trans (hframe3 q h1)⟩

/-- C8: with the template and source binaries unchanged and no environmental
failures, running the deployer twice with the same four parameters is
idempotent — both runs exit normally, and after each run the staging
directory and both destination install directories hold the very same
staged tree (identical manifest and binary set, no stale entries). -/
theorem C8_second_run_idempotent {cfg : Cfg} {p config dv iv : String}
    {fs0 : Entry} {tch sch : List (String × Entry)} {t : String} {mt : Nat}
    (hT : lookupPath fs0 (templateFolder cfg) = some (.dir tch))
    (hSrc : lookupPath fs0 (sourceBinariesFolder cfg config dv) =
      some (.dir sch))
    (hb : isFileO (lookupChild tch "bin") = false)
    (hd : isFileO (lookupChild tch "dyf") = false)
    (he : isFileO (lookupChild tch "extra") = false)
    (hpkg : lookupChild tch "pkg.json" = some (.file t mt))
    (hnd : (sch.map Prod.fst).Nodup)
    (hcompat : compatB (binBase tch) sch = true)
    (hcI : PathIncomp (targetFolder cfg) (packageTargetFolder cfg iv))
    (hrI : PathIncomp (targetFolder cfg) (packageTargetFolderRevit cfg iv))
    (htc : PathIncomp (packageTargetFolder cfg iv) (templateFolder cfg))
    (htr : PathIncomp (packageTargetFolderRevit cfg iv) (templateFolder cfg))
    (hsc : PathIncomp (packageTargetFolder cfg iv)
      (sourceBinariesFolder cfg config dv))
    (hsr : PathIncomp (packageTargetFolderRevit cfg iv)
      (sourceBinariesFolder cfg config dv))
    (hwc : writable fs0 (packageTargetFolder cfg iv) = true)
    (hwr : writable fs0 (packageTargetFolderRevit cfg iv) = true) :
    ∃ S,
      (prepareDynamoPackage.main cfg Oracle.allOk [p, config, dv, iv]
        fs0).exitCode = 0 ∧
      (prepareDynamoPackage.main cfg Oracle.allOk [p, config, dv, iv]
        (prepareDynamoPackage.main cfg Oracle.allOk [p, config, dv, iv]
          fs0).fs).exitCode = 0 ∧
      lookupPath (prepareDynamoPackage.main cfg Oracle.allOk
          [p, config, dv, iv] fs0).fs (targetFolder cfg) = some S ∧
      lookupPath (prepareDynamoPackage.main cfg Oracle.allOk
          [p, config, dv, iv] fs0).fs (packageTargetFolder cfg iv) = some S ∧
      lookupPath (prepareDynamoPackage.main cfg Oracle.allOk
          [p, config, dv, iv] fs0).fs (packageTargetFolderRevit cfg iv) =
        some S ∧
      lookupPath (prepareDynamoPackage.main cfg Oracle.allOk
          [p, config, dv, iv]
          (prepareDynamoPackage.main cfg Oracle.allOk [p, config, dv, iv]
            fs0).fs).fs (targetFolder cfg) = some S ∧
      lookupPath (prepareDynamoPackage.main cfg Oracle.allOk
          [p, config, dv, iv]
          (prepareDynamoPackage.main cfg Oracle.allOk [p, config, dv, iv]
            fs0).fs).fs (packageTargetFolder cfg iv) = some S ∧
      lookupPath (prepareDynamoPackage.main cfg Oracle.allOk
          [p, config, dv, iv]
          (prepareDynamoPackage.main cfg Oracle.allOk [p, config, dv, iv]
            fs0).fs).fs (packageTargetFolderRevit cfg iv) = some S := by
  obtain ⟨ch2, b, hED, hPB, hx1, hstg1, hcore1, hrevit1, hframe1⟩ :=
    main_allOk_success hT hSrc hb hd he hpkg hnd hcompat hcI hrI hwc hwr
  have hT2 : lookupPath (prepareDynamoPackage.main cfg Oracle.allOk
      [p, config, dv, iv] fs0).fs (templateFolder cfg) = some (.dir tch) := by
    rw [hframe1 _ (incomp_target_template cfg) htc htr]
    exact hT
  have hSrc2 : lookupPath (prepareDynamoPackage.main cfg Oracle.allOk
      [p, config, dv, iv] fs0).fs (sourceBinariesFolder cfg config dv) =
      some (.dir sch) := by
    rw [hframe1 _ (incomp_target_source cfg config dv) hsc hsr]
    exact hSrc
  have hwc2 : writable (prepareDynamoPackage.main cfg Oracle.allOk
      [p, config, dv, iv] fs0).fs (packageTargetFolder cfg iv) = true :=
    writable_of_lookup_isSome _ _ (by simp [hcore1])
  have hwr2 : writable (prepareDynamoPackage.main cfg Oracle.allOk
      [p, config, dv, iv] fs0).fs (packageTargetFolderRevit cfg iv) = true :=
    writable_of_lookup_isSome _ _ (by simp [hrevit1])
  obtain ⟨ch2x, bx, hEDx, hPBx, hx2, hstg2, hcore2, hrevit2, _⟩ :=
    main_allOk_success hT2 hSrc2 hb hd he hpkg hnd hcompat hcI hrI hwc2 hwr2
  have hch : ch2 = ch2x := by
    injection hED.symm.trans hEDx
  subst hch
  have hbb : b = bx := by
    injection hPB.symm.trans hPBx
  subst hbb
  exact ⟨stagedEntry ch2 b t iv, hx1, hx2, hstg1, hcore1, hrevit1,
    hstg2, hcore2, hrevit2⟩

/-- Witness for C8 at a concrete filesystem deployed twice in a row. -/
theorem C8_second_run_idempotent_witness :
    lookupPath c8fs (templateFolder c8cfg) =
      some (.dir [("pkg.json", .file "m $Version$ $DynamoVersion$" 7)]) ∧
    lookupPath c8fs (sourceBinariesFolder c8cfg "cfg" "1.0") =
      some (.dir [("a.dll", .file "x" 5)]) ∧
    (∃ S,
      (prepareDynamoPackage.main c8cfg Oracle.allOk ["w", "cfg", "1.0", "4"]
        c8fs).exitCode = 0 ∧
      (prepareDynamoPackage.main c8cfg Oracle.allOk ["w", "cfg", "1.0", "4"]
        (prepareDynamoPackage.main c8cfg Oracle.allOk ["w", "cfg", "1.0", "4"]
          c8fs).fs).exitCode = 0 ∧
      lookupPath (prepareDynamoPackage.main c8cfg Oracle.allOk
          ["w", "cfg", "1.0", "4"] c8fs).fs (targetFolder c8cfg) = some S ∧
      lookupPath (prepareDynamoPackage.main c8cfg Oracle.allOk
          ["w", "cfg", "1.0", "4"] c8fs).fs (packageTargetFolder c8cfg "4") =
        some S ∧
      lookupPath (prepareDynamoPackage.main c8cfg Oracle.allOk
          ["w", "cfg", "1.0", "4"] c8fs).fs
          (packageTargetFolderRevit c8cfg "4") = some S ∧
      lookupPath (prepareDynamoPackage.main c8cfg Oracle.allOk
          ["w", "cfg", "1.0", "4"]
          (prepareDynamoPackage.main c8cfg Oracle.allOk
            ["w", "cfg", "1.0", "4"] c8fs).fs).fs (targetFolder c8cfg) =
        some S ∧
      lookupPath (prepareDynamoPackage.main c8cfg Oracle.allOk
          ["w", "cfg", "1.0", "4"]
          (prepareDynamoPackage.main c8cfg Oracle.allOk
            ["w", "cfg", "1.0", "4"] c8fs).fs).fs
          (packageTargetFolder c8cfg "4") = some S ∧
      lookupPath (prepareDynamoPackage.main c8cfg Oracle.allOk
          ["w", "cfg", "1.0", "4"]
          (prepareDynamoPackage.main c8cfg Oracle.allOk
            ["w", "cfg", "1.0", "4"] c8fs).fs).fs
          (packageTargetFolderRevit c8cfg "4") = some S) :=
  ⟨rfl, rfl,
   C8_second_run_idempotent rfl rfl rfl rfl rfl rfl (by decide) rfl
     (by decide) (by decide) (by decide) (by decide) (by decide) (by decide)
     rfl rfl⟩
